import Mathlib

/-!
Verification of the x402 payment protocol engine of the wallet-analytics API.

The TypeScript sources are embedded shallowly:
* JS numbers (amounts, epoch-millisecond timestamps) are modelled as exact
  rationals; the code only adds, subtracts and compares them.
* Asynchronous calls to Redis (cacheService), Postgres (databaseService) and
  the PayAI facilitator are modelled by explicit state passing plus an
  environment record carrying the failure switches of those dependencies and
  an oracle for the facilitator-backed validator (which performs only HTTP
  calls and never touches the nonce store or the ledger).
* Every fallible operation returns an Option, and every value type has
  decidable equality so theorems can be checked on concrete inputs.
-/

namespace X402

/-- A payment proof (schemas/payment.ts, paymentProofSchema).  The free-form
`metadata` record of the schema is carried by no code path that the claims
touch and is omitted. -/
structure PaymentProof where
  protocol : String
  nonce : String
  signature : String
  wallet : String
  amount : ℚ
  currency : String
  network : String
  timestamp : ℚ
  facilitatorSignature : Option String := none
deriving Repr, DecidableEq

/-- The reasons carried by `ValidatedPayment.error`; each constructor stands
for one error string produced by the sources:
* `invalidOrExpiredNonce` — "Invalid or expired nonce" (validator.ts)
* `replayDetected` — "Payment proof already used (replay attack prevented)"
* `amountMismatch e g` — "Amount mismatch: expected e, got g" (mock.ts)
* `proofExpired m` — "Payment proof expired (m minutes old)" (mock.ts)
* `invalidSignatureFormat` — "Invalid signature format" (mock.ts)
* `facilitator msg` — a message produced by the PayAI facilitator path. -/
inductive VError where
  | invalidOrExpiredNonce
  | replayDetected
  | amountMismatch (expected got : ℚ)
  | proofExpired (ageMinutes : ℚ)
  | invalidSignatureFormat
  | facilitator (msg : String)
deriving Repr, DecidableEq

/-- The outcome of a validation attempt (types/payment.ts, ValidatedPayment). -/
structure ValidatedPayment where
  valid : Bool
  proof : PaymentProof
  wallet : String
  amount : ℚ
  currency : String
  endpoint : String
  verifiedAt : ℚ
  expiresAt : ℚ
  error : Option VError := none
  transactionHash : Option String := none
deriving Repr, DecidableEq

/-- Five minutes in milliseconds: the expiry window attached to every
`ValidatedPayment` by the sources (`5 * 60 * 1000`). -/
def fiveMinutesMs : ℚ := 5 * 60 * 1000

namespace MockPaymentValidator

/-- mock.ts, `MockPaymentValidator.validatePayment`: the simulated strategy.
`now` is the value of `Date.now()` / `new Date()` during the call (epoch ms);
`proof.timestamp` is the epoch-millisecond reading of the ISO
timestamp.  The three checks run in the source order: amount tolerance,
proof age, then signature length. -/
def validatePayment (now : ℚ) (proof : PaymentProof) (expectedAmount : ℚ)
    (endpoint : String) : ValidatedPayment :=
  let amountDifference := |proof.amount - expectedAmount|
  if amountDifference > 1 / 1000 then
    { valid := false, proof := proof, wallet := proof.wallet
      amount := proof.amount, currency := proof.currency, endpoint := endpoint
      verifiedAt := now, expiresAt := now + fiveMinutesMs
      error := some (.amountMismatch expectedAmount proof.amount) }
  else
    let ageMinutes := (now - proof.timestamp) / 1000 / 60
    if ageMinutes > 5 then
      { valid := false, proof := proof, wallet := proof.wallet
        amount := proof.amount, currency := proof.currency, endpoint := endpoint
        verifiedAt := now, expiresAt := now + fiveMinutesMs
        error := some (.proofExpired ageMinutes) }
    else if proof.signature.length < 10 then
      { valid := false, proof := proof, wallet := proof.wallet
        amount := proof.amount, currency := proof.currency, endpoint := endpoint
        verifiedAt := now, expiresAt := now + fiveMinutesMs
        error := some .invalidSignatureFormat }
    else
      { valid := true, proof := proof, wallet := proof.wallet
        amount := proof.amount, currency := proof.currency, endpoint := endpoint
        verifiedAt := now, expiresAt := now + fiveMinutesMs }

end MockPaymentValidator

/-- The payment modes of config.payment.mode dispatched by validator.ts
(the `default` branch of the switch is unreachable over this closed set). -/
inductive Mode where
  | mock
  | test
  | payai
deriving Repr, DecidableEq

/-- The metadata stored under a `payment:nonce:` cache key by
`createChallenge` (validator.ts). -/
structure NonceData where
  created : ℚ
  endpoint : String
  amount : ℚ
deriving Repr, DecidableEq

/-- A value held by the shared Redis cache: either challenge-nonce metadata or
a cached ValidatedPayment.  The two key families (`payment:nonce:...` and
`payment:validated:...`) never collide, so the sources never read one kind
through the other. -/
inductive CacheVal where
  | nonceData (d : NonceData)
  | payment (v : ValidatedPayment)
deriving Repr, DecidableEq

/-- One entry of the shared cache: key, value and the TTL (seconds) it was
set with.  TTL expiry itself is passage of real time and is not stepped here;
an expired nonce is represented by the entry being absent. -/
structure CacheEntry where
  key : String
  val : CacheVal
  ttl : Option Nat
deriving Repr, DecidableEq

/-- A row of the `payment_proofs` table (the Settlement Ledger), as written by
`PaymentValidator.storePayment`. -/
structure PaymentRow where
  nonce : String
  wallet : String
  amount : ℚ
  endpoint : String
  proofData : PaymentProof
  verifiedAt : ℚ
  expiresAt : ℚ
deriving Repr, DecidableEq

/-- The mutable state shared by all validations: the Redis keyspace and the
`payment_proofs` table. -/
structure Store where
  cache : List CacheEntry
  rows : List PaymentRow
deriving Repr, DecidableEq

/-- The per-call environment: the configured mode, the clock, the
connectivity / failure switches of the two dependencies, and the
facilitator-backed validator (payai.ts) as an oracle — that validator only
performs HTTP calls against the facilitator and never touches the cache or
the database, so a pure function of its inputs models any fixed behaviour of
the remote service. -/
structure Env where
  mode : Mode
  now : ℚ
  redisConnected : Bool
  dbSelectFails : Bool
  dbInsertFails : Bool
  payaiValidate : PaymentProof → ℚ → String → ValidatedPayment

/-- The observable dependency calls a validation performs, in order.  Used to
state non-invocation properties (C3). -/
inductive Effect where
  | cacheGet (key : String)
  | cacheSet (key : String)
  | cacheDelete (key : String)
  | dbSelect (nonce : String)
  | dbInsert (nonce : String)
  | strategyCall (m : Mode)
deriving Repr, DecidableEq

/-- cache.ts `CacheService.get`: returns the stored value, or none when the
client is not connected (errors are caught and also yield null). -/
def cacheGet (env : Env) (st : Store) (key : String) : Option CacheVal :=
  if env.redisConnected then
    (st.cache.find? fun e => decide (e.key = key)).map (·.val)
  else none

/-- cache.ts `CacheService.set`: overwrites the key with the value and TTL;
a no-op when the client is not connected (errors are caught). -/
def cacheSet (env : Env) (st : Store) (key : String) (v : CacheVal)
    (ttl : Option Nat) : Store :=
  if env.redisConnected then
    { st with cache := ⟨key, v, ttl⟩ :: st.cache.filter fun e => !decide (e.key = key) }
  else st

/-- cache.ts `CacheService.delete`: removes the key; a no-op when the client
is not connected (errors are caught). -/
def cacheDelete (env : Env) (st : Store) (key : String) : Store :=
  if env.redisConnected then
    { st with cache := st.cache.filter fun e => !decide (e.key = key) }
  else st

namespace PaymentValidator

/-- validator.ts `PaymentValidator.getPaymentByNonce`: SELECT on the
`payment_proofs` table by nonce.  A query error is caught, logged, and the
method returns false — the caller cannot tell a failed check from an unused
nonce. -/
def getPaymentByNonce (env : Env) (st : Store) (nonce : String) : Bool :=
  if env.dbSelectFails then false
  else st.rows.any fun r => decide (r.nonce = nonce)

/-- The `payment_proofs` row written for a validated payment
(`storePayment`). -/
def rowOfPayment (p : ValidatedPayment) : PaymentRow :=
  { nonce := p.proof.nonce, wallet := p.wallet, amount := p.amount
    endpoint := p.endpoint, proofData := p.proof
    verifiedAt := p.verifiedAt, expiresAt := p.expiresAt }

/-- validator.ts `PaymentValidator.storePayment`: INSERT of the row.  The
INSERT throws on a unique-constraint violation (nonce already present) and on
any infrastructure failure; both are caught by the surrounding try/catch,
which logs and returns normally (source comment: do not fail the request if
database storage fails), leaving the table unchanged. -/
def storePayment (env : Env) (st : Store) (payment : ValidatedPayment) : Store :=
  if env.dbInsertFails ∨ st.rows.any (fun r => decide (r.nonce = payment.proof.nonce)) then st
  else { st with rows := st.rows ++ [rowOfPayment payment] }

/-- The strategy dispatch of validator.ts `validatePayment` (the switch on
config.payment.mode): mock mode runs the simulated strategy, test and payai
modes run the PayAI facilitator-backed validator. -/
def strategyValidate (env : Env) (proof : PaymentProof) (expectedAmount : ℚ)
    (endpoint : String) : ValidatedPayment :=
  match env.mode with
  | .mock => MockPaymentValidator.validatePayment env.now proof expectedAmount endpoint
  | .test => env.payaiValidate proof expectedAmount endpoint
  | .payai => env.payaiValidate proof expectedAmount endpoint

/-- The invalid ValidatedPayment built by the early returns of
`validatePayment`. -/
def invalidResult (env : Env) (proof : PaymentProof) (endpoint : String)
    (e : VError) : ValidatedPayment :=
  { valid := false, proof := proof, wallet := proof.wallet
    amount := proof.amount, currency := proof.currency, endpoint := endpoint
    verifiedAt := env.now, expiresAt := env.now + fiveMinutesMs
    error := some e }

/-- validator.ts `PaymentValidator.validatePayment`: (1) outside mock mode,
peek the nonce in the cache, absent means "Invalid or expired nonce";
(2) check the Settlement Ledger by nonce, present means the replay error;
(3) dispatch to the configured strategy; (4) only when the strategy result is
valid, store it in the database and delete the nonce from the cache.  Returns
the result, the updated store, and the trace of dependency calls made. -/
def validatePayment (env : Env) (st : Store) (proof : PaymentProof)
    (expectedAmount : ℚ) (endpoint : String) :
    ValidatedPayment × Store × List Effect :=
  let nonceKey := "payment:nonce:" ++ proof.nonce
  if env.mode ≠ Mode.mock ∧ cacheGet env st nonceKey = none then
    (invalidResult env proof endpoint .invalidOrExpiredNonce, st, [.cacheGet nonceKey])
  else
    let gateFx : List Effect := if env.mode ≠ Mode.mock then [.cacheGet nonceKey] else []
    if getPaymentByNonce env st proof.nonce then
      (invalidResult env proof endpoint .replayDetected, st,
        gateFx ++ [.dbSelect proof.nonce])
    else
      let validation := strategyValidate env proof expectedAmount endpoint
      let fx := gateFx ++ [.dbSelect proof.nonce, .strategyCall env.mode]
      if validation.valid then
        let st1 := storePayment env st validation
        let st2 := cacheDelete env st1 nonceKey
        (validation, st2, fx ++ [.dbInsert validation.proof.nonce, .cacheDelete nonceKey])
      else
        (validation, st, fx)

/-- validator.ts `PaymentValidator.getCachedPayment`: read of the validation
cache under the endpoint-qualified key.  The key families are prefix-disjoint,
so the read can only ever see a `payment` value; a `nonceData` value under
this key is unreachable and reads as a miss. -/
def getCachedPayment (env : Env) (st : Store) (nonce endpoint : String) :
    Option ValidatedPayment × List Effect :=
  let cacheKey := "payment:validated:" ++ nonce ++ ":" ++ endpoint
  (match cacheGet env st cacheKey with
   | some (.payment v) => some v
   | _ => none,
   [.cacheGet cacheKey])

/-- validator.ts `PaymentValidator.cachePayment`: write of the validation
cache under the endpoint-qualified key, TTL 300 seconds. -/
def cachePayment (env : Env) (st : Store) (payment : ValidatedPayment)
    (endpoint : String) : Store × List Effect :=
  let cacheKey := "payment:validated:" ++ payment.proof.nonce ++ ":" ++ endpoint
  (cacheSet env st cacheKey (.payment payment) (some 300), [.cacheSet cacheKey])

end PaymentValidator

/-- x402Payment.ts middleware, the proof-handling step after header parsing:
consult the validation cache for (nonce, url); on a miss run the validation
and cache the result only when it is valid; return the ValidatedPayment the
request is decided on, the final store, and the trace of dependency calls. -/
def x402ProcessPayment (env : Env) (st : Store) (paymentProof : PaymentProof)
    (price : ℚ) (url : String) : ValidatedPayment × Store × List Effect :=
  match PaymentValidator.getCachedPayment env st paymentProof.nonce url with
  | (some v, fx) => (v, st, fx)
  | (none, fx) =>
      let r := PaymentValidator.validatePayment env st paymentProof price url
      if r.1.valid then
        let c := PaymentValidator.cachePayment env r.2.1 r.1 url
        (r.1, c.1, fx ++ r.2.2 ++ c.2)
      else
        (r.1, r.2.1, fx ++ r.2.2)

/-! ### Concrete inputs used by witnesses and counterexamples -/

/-- A concrete proof paying 0.02 USDC, used by the C4 witness. -/
def overpayingProof : PaymentProof :=
  { protocol := "x402", nonce := "nonce-0000000000-aa", signature := "signature-mock"
    wallet := "So11111111111111111111111111111111111111112", amount := 2 / 100
    currency := "USDC", network := "solana", timestamp := 0 }

/-- A concrete well-formed proof with an outstanding challenge nonce. -/
def baseProof : PaymentProof :=
  { protocol := "x402", nonce := "nonce-1700000000000-0123456789abcdef"
    signature := "5Sig1111111111111111111111111111"
    wallet := "7xKXtg2CW87d97TXJSDpbD5jBkheTqA83TZRuJosgAsU", amount := 1 / 100
    currency := "USDC", network := "solana", timestamp := 0 }

/-- A facilitator oracle that accepts every proof, echoing the proof back the
way payai.ts does on a verified and settled payment. -/
def acceptOracle (p : PaymentProof) (_expectedAmount : ℚ) (e : String) :
    ValidatedPayment :=
  { valid := true, proof := p, wallet := p.wallet, amount := p.amount
    currency := p.currency, endpoint := e, verifiedAt := 0
    expiresAt := fiveMinutesMs, transactionHash := some "FacilitatorTx111" }

/-- A facilitator oracle that rejects every proof with the facilitator
reason, the way payai.ts reports a negative verify verdict. -/
def rejectOracle (p : PaymentProof) (_expectedAmount : ℚ) (e : String) :
    ValidatedPayment :=
  { valid := false, proof := p, wallet := p.wallet, amount := p.amount
    currency := p.currency, endpoint := e, verifiedAt := 0
    expiresAt := fiveMinutesMs
    error := some (.facilitator "Payment verification failed") }

/-- The cache entry written when the challenge for `baseProof.nonce` was
issued for the overview endpoint at price 0.01. -/
def challengeEntry : CacheEntry :=
  { key := "payment:nonce:" ++ baseProof.nonce
    val := .nonceData { created := 0, endpoint := "/api/v1/wallet/w/overview", amount := 1 / 100 }
    ttl := some 300 }

/-- A store holding exactly the outstanding challenge nonce and no settled
payments. -/
def challengeStore : Store := { cache := [challengeEntry], rows := [] }

/-- A settled row for `baseProof`, as `storePayment` writes it on the accept
oracle result. -/
def settledRow : PaymentRow :=
  { nonce := baseProof.nonce, wallet := baseProof.wallet, amount := baseProof.amount
    endpoint := "/api/v1/wallet/w/overview", proofData := baseProof
    verifiedAt := 0, expiresAt := fiveMinutesMs }

/-- A payai-mode environment with both dependencies healthy and the accepting
facilitator oracle. -/
def healthyPayaiEnv : Env :=
  { mode := .payai, now := 0, redisConnected := true
    dbSelectFails := false, dbInsertFails := false, payaiValidate := acceptOracle }

/-- The same environment with a facilitator that rejects every proof. -/
def rejectingPayaiEnv : Env :=
  { healthyPayaiEnv with payaiValidate := rejectOracle }

/-- The healthy payai environment with a failing ledger INSERT. -/
def insertFailingPayaiEnv : Env :=
  { healthyPayaiEnv with dbInsertFails := true }

/-- The healthy payai environment with a failing ledger SELECT. -/
def selectFailingPayaiEnv : Env :=
  { healthyPayaiEnv with dbSelectFails := true }

/-- A store where the challenge nonce is still outstanding in the cache but
the very same nonce is already settled in the `payment_proofs` table. -/
def settledStore : Store := { cache := [challengeEntry], rows := [settledRow] }

/-- The successful ValidatedPayment for `baseProof` on the overview endpoint,
as the accepting facilitator produces it. -/
def cachedPayment : ValidatedPayment :=
  { valid := true, proof := baseProof, wallet := baseProof.wallet
    amount := baseProof.amount, currency := baseProof.currency
    endpoint := "/api/v1/wallet/w/overview", verifiedAt := 0
    expiresAt := fiveMinutesMs, transactionHash := some "FacilitatorTx111" }

/-- A store whose validation cache already holds `cachedPayment` under the
(nonce, overview-endpoint) key. -/
def cachedStore : Store :=
  { cache := [{ key := "payment:validated:" ++ baseProof.nonce ++ ":" ++
                  "/api/v1/wallet/w/overview"
                val := .payment cachedPayment, ttl := some 300 }]
    rows := [] }

/-! ### Direct on-chain verification (services/database.ts, the
`verifyOnChainPayment` document) -/

/-- The USDC token mint address on Solana mainnet (constant `USDC_MINT`). -/
def USDC_MINT : String := "EPjFWdd5AufqSSqeM2qN1xzybapC8G4wEGGkZwyTDt1v"

/-- `MAX_TRANSACTION_AGE_SECONDS` — five minutes. -/
def MAX_TRANSACTION_AGE_SECONDS : Int := 300

/-- The `info` object of a parsed spl-token instruction.  String fields use
the empty string for an absent field, which is what the JS `|| fallback`
chains test for; `amount` / `tokenAmount` carry the parseInt value of the
corresponding string field when it is present (the JS fallback of `info.amount`
to the zero numeral parses to 0 when the field is absent: `Option.getD 0`). -/
structure ParsedInfo where
  amount : Option Nat := none
  tokenAmount : Option Nat := none
  source : String := ""
  authority : String := ""
  destination : String := ""
  mint : String := ""
deriving Repr, DecidableEq

/-- One instruction of the fetched transaction message; `hasParsed` models
the parsed-in-instruction test, `ptype` the `parsed.type` tag. -/
structure ParsedInstruction where
  hasParsed : Bool
  program : String
  ptype : String
  info : ParsedInfo
deriving Repr, DecidableEq

/-- The loop guard: a parsed spl-token instruction whose type is `transfer`
or `transferChecked`. -/
def isTransferIx (i : ParsedInstruction) : Bool :=
  i.hasParsed && i.program == "spl-token" &&
    (i.ptype == "transfer" || i.ptype == "transferChecked")

/-- The scan variables of the instruction loop (`foundTransfer`,
`transferAmount`, `transferSender`, `transferRecipient`, `transferMint`). -/
structure TransferScan where
  foundTransfer : Bool
  transferAmount : Nat
  transferSender : String
  transferRecipient : String
  transferMint : String
deriving Repr, DecidableEq

/-- The scan variables before the loop runs. -/
def initialScan : TransferScan := ⟨false, 0, "", "", ""⟩

/-- The assignments one matching instruction performs: amount from
`tokenAmount` for `transferChecked` and from `amount` otherwise, sender from
`source || authority || empty`, recipient from `destination || empty`, mint
from `mint || empty`. -/
def scanOfIx (i : ParsedInstruction) : TransferScan :=
  { foundTransfer := true
    transferAmount := if i.ptype == "transferChecked" then i.info.tokenAmount.getD 0
                      else i.info.amount.getD 0
    transferSender := if i.info.source ≠ "" then i.info.source else i.info.authority
    transferRecipient := i.info.destination
    transferMint := i.info.mint }

/-- The instruction loop of verifyOnChainPayment: every matching instruction
overwrites the scan variables and the loop has no break, so the last match
wins. -/
def scanTransfers (l : List ParsedInstruction) : TransferScan :=
  l.foldl (fun s i => if isTransferIx i then scanOfIx i else s) initialScan

/-- One entry of `transaction.transaction.message.accountKeys`. -/
structure AccountKey where
  pubkey : String
  signer : Bool
deriving Repr, DecidableEq

/-- The used fields of a fetched parsed transaction: `metaErr` is the
truthiness of `transaction.meta?.err`. -/
structure FetchedTransaction where
  metaErr : Bool
  blockTime : Option Int
  instructions : List ParsedInstruction
  accountKeys : List AccountKey
deriving Repr, DecidableEq

/-- The resolution of the bounded fetch-retry loop (at most 10 attempts with
a fixed 2-second delay): the transaction was found, was never indexed, or the
RPC threw on the final attempt. -/
inductive FetchOutcome where
  | found (tx : FetchedTransaction)
  | notFound
  | fetchError
deriving Repr, DecidableEq

/-- The used fields of X402PaymentRequirement: `maxAmountRequired` is the
parseInt value of the atomic-amount string, `payTo` the recipient wallet. -/
structure X402PaymentRequirement where
  maxAmountRequired : Nat
  payTo : String
deriving Repr, DecidableEq

/-- The rejection reasons of verifyOnChainPayment, one constructor per reason
string of the source. -/
inductive OnChainReason where
  | missingSignature
  | transactionNotFound
  | fetchFailed
  | transactionFailed
  | noTimestamp
  | transactionTooOld (age : Int)
  | noTransferFound
  | wrongMint (got : String)
  | insufficientPayment (got required : Nat)
  | senderMismatch (claimed : String)
deriving Repr, DecidableEq

/-- OnChainVerificationResult of the source. -/
structure OnChainVerificationResult where
  isValid : Bool
  reason : Option OnChainReason := none
  txHash : Option String := none
  amount : Option Nat := none
  sender : Option String := none
  recipient : Option String := none
  timestamp : Option Int := none
deriving Repr, DecidableEq

/-- database.ts `verifyOnChainPayment`, from the point where the bounded
retry loop has resolved: `now` is `Math.floor(Date.now() / 1000)` and `fetch`
the outcome of that loop.  The checks run in source order: signature present,
transaction found, on-chain success, timestamp present, transaction age,
transfer located by the scan loop, token mint, transferred amount, claimed
sender among the signers. -/
def verifyOnChainPayment (now : Int) (txSignature fromAddress : String)
    (requirement : X402PaymentRequirement) (fetch : FetchOutcome) :
    OnChainVerificationResult :=
  if txSignature = "" then
    { isValid := false, reason := some .missingSignature }
  else
    match fetch with
    | .notFound => { isValid := false, reason := some .transactionNotFound }
    | .fetchError => { isValid := false, reason := some .fetchFailed }
    | .found tx =>
      if tx.metaErr then
        { isValid := false, reason := some .transactionFailed }
      else
        match tx.blockTime with
        | none => { isValid := false, reason := some .noTimestamp }
        | some blockTime =>
          let txAge := now - blockTime
          if txAge > MAX_TRANSACTION_AGE_SECONDS then
            { isValid := false, reason := some (.transactionTooOld txAge)
              timestamp := some blockTime }
          else
            let s := scanTransfers tx.instructions
            if !s.foundTransfer then
              { isValid := false, reason := some .noTransferFound }
            else if s.transferMint ≠ "" ∧ s.transferMint ≠ USDC_MINT then
              { isValid := false, reason := some (.wrongMint s.transferMint) }
            else if s.transferAmount < requirement.maxAmountRequired then
              { isValid := false
                reason := some (.insufficientPayment s.transferAmount
                  requirement.maxAmountRequired)
                amount := some s.transferAmount }
            else
              let signers := (tx.accountKeys.filter (·.signer)).map (·.pubkey)
              if fromAddress ≠ "" ∧ fromAddress ∉ signers then
                { isValid := false, reason := some (.senderMismatch fromAddress)
                  sender := some (String.intercalate ", " signers) }
              else
                { isValid := true, txHash := some txSignature
                  amount := some s.transferAmount, sender := some fromAddress
                  recipient := some requirement.payTo, timestamp := some blockTime }

/-- A concrete transferChecked USDC instruction moving 400000 atomic units. -/
def usdcTransferIx : ParsedInstruction :=
  { hasParsed := true, program := "spl-token", ptype := "transferChecked"
    info := { tokenAmount := some 400000
              source := "SrcTokenAccount11111111111111111111111111111"
              authority := "7xKXtg2CW87d97TXJSDpbD5jBkheTqA83TZRuJosgAsU"
              destination := "DstTokenAccount1111111111111111111111111111"
              mint := USDC_MINT } }

/-- A concrete plain `transfer` instruction (no mint in its parsed info)
moving 900000 atomic units. -/
def plainTransferIx : ParsedInstruction :=
  { hasParsed := true, program := "spl-token", ptype := "transfer"
    info := { amount := some 900000
              source := "SrcTokenAccount11111111111111111111111111111"
              authority := "7xKXtg2CW87d97TXJSDpbD5jBkheTqA83TZRuJosgAsU"
              destination := "DstTokenAccount1111111111111111111111111111" } }

/-- A concrete fetched transaction carrying `usdcTransferIx`, signed by the
wallet of `baseProof`. -/
def sampleTx : FetchedTransaction :=
  { metaErr := false, blockTime := some 1000
    instructions := [usdcTransferIx]
    accountKeys :=
      [{ pubkey := "7xKXtg2CW87d97TXJSDpbD5jBkheTqA83TZRuJosgAsU", signer := true },
       { pubkey := "DstTokenAccount1111111111111111111111111111", signer := false }] }

/-- The same transaction with the plain (mint-less) transfer instruction. -/
def samplePlainTx : FetchedTransaction :=
  { sampleTx with instructions := [plainTransferIx] }

/-- A concrete requirement: 500000 atomic units to the collector wallet. -/
def sampleRequirement : X402PaymentRequirement :=
  { maxAmountRequired := 500000, payTo := "CollectorWallet11111111111111111111111111111" }

/-! ### The proof codec (schemas/payment.ts)

`encodePaymentChallenge` is `paymentChallengeSchema.parse`, then
`JSON.stringify`, then base64 of the UTF-8 bytes.  The platform pieces —
base64, UTF-8, and the JSON fragment that a flat object of strings and one
number serializes to — are modelled concretely below so the round-trip law
can be proved end to end.  JS numbers are represented by their decimal
numerals (the text `JSON.stringify` emits and `JSON.parse` reads); the
schema's numeric bounds are evaluated on that numeral exactly. -/

/-- The base64 digit for a sextet, over the standard alphabet
`A-Z a-z 0-9 + /` that `Buffer.toString` with base64 uses. -/
def encBase64Char (n : Nat) : Char :=
  if n < 26 then Char.ofNat (65 + n)
  else if n < 52 then Char.ofNat (97 + (n - 26))
  else if n < 62 then Char.ofNat (48 + (n - 52))
  else if n = 62 then '+'
  else '/'

/-- The sextet of a base64 digit, when it is one. -/
def decBase64Char (c : Char) : Option Nat :=
  if 65 ≤ c.toNat ∧ c.toNat ≤ 90 then some (c.toNat - 65)
  else if 97 ≤ c.toNat ∧ c.toNat ≤ 122 then some (c.toNat - 97 + 26)
  else if 48 ≤ c.toNat ∧ c.toNat ≤ 57 then some (c.toNat - 48 + 52)
  else if c = '+' then some 62
  else if c = '/' then some 63
  else none

/-- Base64 of a byte list, processed three bytes to four digits, with the
standard `=` padding. -/
def b64encode : List Nat → List Char
  | [] => []
  | [a] =>
    [encBase64Char (a / 4), encBase64Char (a % 4 * 16), '=', '=']
  | [a, b] =>
    [encBase64Char (a / 4), encBase64Char (a % 4 * 16 + b / 16),
     encBase64Char (b % 16 * 4), '=']
  | a :: b :: c :: rest =>
    encBase64Char (a / 4) :: encBase64Char (a % 4 * 16 + b / 16) ::
      encBase64Char (b % 16 * 4 + c / 64) :: encBase64Char (c % 64) ::
      b64encode rest

/-- Base64 decoding: groups of four digits, with `=` padding allowed only to
close the final group. -/
def b64decode : List Char → Option (List Nat)
  | [] => some []
  | c1 :: c2 :: c3 :: c4 :: rest =>
    if c3 = '=' then
      if c4 = '=' ∧ rest = [] then do
        let s1 ← decBase64Char c1
        let s2 ← decBase64Char c2
        some [s1 * 4 + s2 / 16]
      else none
    else if c4 = '=' then
      if rest = [] then do
        let s1 ← decBase64Char c1
        let s2 ← decBase64Char c2
        let s3 ← decBase64Char c3
        some [s1 * 4 + s2 / 16, s2 % 16 * 16 + s3 / 4]
      else none
    else do
      let s1 ← decBase64Char c1
      let s2 ← decBase64Char c2
      let s3 ← decBase64Char c3
      let s4 ← decBase64Char c4
      let tail ← b64decode rest
      some ((s1 * 4 + s2 / 16) :: (s2 % 16 * 16 + s3 / 4) :: (s3 % 4 * 64 + s4) :: tail)
  | _ => none

/-- The UTF-8 bytes of one Unicode scalar value. -/
def utf8EncodeChar (c : Char) : List Nat :=
  let n := c.toNat
  if n < 128 then [n]
  else if n < 2048 then [192 + n / 64, 128 + n % 64]
  else if n < 65536 then [224 + n / 4096, 128 + n / 64 % 64, 128 + n % 64]
  else [240 + n / 262144, 128 + n / 4096 % 64, 128 + n / 64 % 64, 128 + n % 64]

/-- The UTF-8 bytes of a character list. -/
def utf8Encode (s : List Char) : List Nat := s.flatMap utf8EncodeChar

/-- A UTF-8 continuation byte. -/
def isCont (b : Nat) : Bool := 128 ≤ b && b < 192

/-- One UTF-8 decoding step, by leading-byte range: the decoded scalar and
the remaining bytes. -/
def utf8DecodeStep : List Nat → Option (Char × List Nat)
  | [] => none
  | b :: rest =>
    if b < 128 then some (Char.ofNat b, rest)
    else if b < 192 then none
    else if b < 224 then
      match rest with
      | b1 :: rest1 =>
        if isCont b1 then
          some (Char.ofNat ((b - 192) * 64 + (b1 - 128)), rest1)
        else none
      | [] => none
    else if b < 240 then
      match rest with
      | b1 :: b2 :: rest2 =>
        if isCont b1 && isCont b2 then
          some (Char.ofNat ((b - 224) * 4096 + (b1 - 128) * 64 + (b2 - 128)), rest2)
        else none
      | _ => none
    else if b < 248 then
      match rest with
      | b1 :: b2 :: b3 :: rest3 =>
        if isCont b1 && isCont b2 && isCont b3 then
          some (Char.ofNat ((b - 240) * 262144 + (b1 - 128) * 4096 +
            (b2 - 128) * 64 + (b3 - 128)), rest3)
        else none
      | _ => none
    else none

/-- UTF-8 decoding, stepping until the input is exhausted.  Every step
consumes at least one byte, so the input length is always enough fuel. -/
def utf8DecodeAux : Nat → List Nat → Option (List Char)
  | _, [] => some []
  | 0, _ :: _ => none
  | fuel + 1, b :: rest =>
    match utf8DecodeStep (b :: rest) with
    | some (c, rest2) => (utf8DecodeAux fuel rest2).map (c :: ·)
    | none => none

/-- UTF-8 decoding of a byte list. -/
def utf8Decode (l : List Nat) : Option (List Char) := utf8DecodeAux l.length l

/-- The lowercase hex digit of a nibble, as JSON.stringify prints control
characters. -/
def hexDigit (n : Nat) : Char :=
  if n < 10 then Char.ofNat (48 + n) else Char.ofNat (87 + n)

/-- A hex digit read back as its value (JSON.parse accepts either case). -/
def hexVal (c : Char) : Option Nat :=
  if 48 ≤ c.toNat ∧ c.toNat ≤ 57 then some (c.toNat - 48)
  else if 97 ≤ c.toNat ∧ c.toNat ≤ 102 then some (c.toNat - 87)
  else if 65 ≤ c.toNat ∧ c.toNat ≤ 70 then some (c.toNat - 55)
  else none

/-- One character the way JSON.stringify escapes it inside a string literal:
quote and backslash escaped, the named control escapes, other control
characters as a four-hex-digit escape, everything else literal. -/
def escapeChar (c : Char) : List Char :=
  if c = '"' then ['\\', '"']
  else if c = '\\' then ['\\', '\\']
  else if c = '\n' then ['\\', 'n']
  else if c = '\r' then ['\\', 'r']
  else if c = '\t' then ['\\', 't']
  else if c = Char.ofNat 8 then ['\\', 'b']
  else if c = Char.ofNat 12 then ['\\', 'f']
  else if c.toNat < 32 then
    ['\\', 'u', '0', '0', hexDigit (c.toNat / 16), hexDigit (c.toNat % 16)]
  else [c]

/-- A JSON string literal: quote, escaped characters, quote. -/
def renderString (s : String) : List Char :=
  '"' :: (s.data.flatMap escapeChar ++ ['"'])

/-- The named single-character escapes JSON.parse accepts. -/
def unescapeSimple (e : Char) : Option Char :=
  if e = '"' then some '"'
  else if e = '\\' then some '\\'
  else if e = '/' then some '/'
  else if e = 'n' then some '\n'
  else if e = 'r' then some '\r'
  else if e = 't' then some '\t'
  else if e = 'b' then some (Char.ofNat 8)
  else if e = 'f' then some (Char.ofNat 12)
  else none

/-- One step of reading a string literal body: the closing quote (no
character), an escape, or a literal character. -/
def parseStringStep : List Char → Option (Option Char × List Char)
  | [] => none
  | c :: rest =>
    if c = '"' then some (none, rest)
    else if c = '\\' then
      match rest with
      | [] => none
      | e :: rest1 =>
        if e = 'u' then
          match rest1 with
          | a :: b :: d :: f :: rest2 =>
            match hexVal a, hexVal b, hexVal d, hexVal f with
            | some va, some vb, some vd, some vf =>
              some (some (Char.ofNat (((va * 16 + vb) * 16 + vd) * 16 + vf)), rest2)
            | _, _, _, _ => none
          | _ => none
        else
          match unescapeSimple e with
          | some ch => some (some ch, rest1)
          | none => none
    else some (some c, rest)

/-- Reading a string literal body, stepping until the closing quote; every
step consumes at least one character, so the input length is enough fuel. -/
def parseStringAux : Nat → List Char → List Char → Option (String × List Char)
  | 0, _, _ => none
  | fuel + 1, acc, l =>
    match parseStringStep l with
    | some (none, rest) => some (String.mk acc.reverse, rest)
    | some (some ch, rest) => parseStringAux fuel (ch :: acc) rest
    | none => none

/-- The digit characters. -/
def isDigitCh (c : Char) : Bool := 48 ≤ c.toNat && c.toNat ≤ 57

/-- The characters a JSON number token may contain. -/
def isNumChar (c : Char) : Bool :=
  isDigitCh c || c == '.' || c == '-' || c == '+' || c == 'e' || c == 'E'

/-- The longest prefix whose characters satisfy the predicate. -/
def takeWh (p : Char → Bool) : List Char → List Char
  | [] => []
  | c :: r => if p c then c :: takeWh p r else []

/-- What remains after `takeWh`. -/
def dropWh (p : Char → Bool) : List Char → List Char
  | [] => []
  | c :: r => if p c then dropWh p r else c :: r

/-- The value of a digit run. -/
def digitsToNat (ds : List Char) : Nat :=
  ds.foldl (fun a c => a * 10 + (c.toNat - 48)) 0

/-- The digit run of an exponent, which must end the token. -/
def numExpDigits (neg : Bool) (ids fds : List Char) (sign : Int)
    (t : List Char) : Option (Bool × List Char × List Char × Int) :=
  let eds := takeWh isDigitCh t
  if eds.isEmpty ∨ ¬(dropWh isDigitCh t).isEmpty then none
  else some (neg, ids, fds, sign * (digitsToNat eds : Int))

/-- The exponent tail of a JSON number (after the `e`): optional sign, then
digits, which must end the token. -/
def numExpTail (neg : Bool) (ids fds : List Char) :
    List Char → Option (Bool × List Char × List Char × Int)
  | [] => numExpDigits neg ids fds 1 []
  | c :: t =>
    if c = '+' then numExpDigits neg ids fds 1 t
    else if c = '-' then numExpDigits neg ids fds (-1) t
    else numExpDigits neg ids fds 1 (c :: t)

/-- The optional exponent part of a JSON number. -/
def numExp (neg : Bool) (ids fds : List Char) :
    List Char → Option (Bool × List Char × List Char × Int)
  | [] => some (neg, ids, fds, 0)
  | c :: r => if c = 'e' ∨ c = 'E' then numExpTail neg ids fds r else none

/-- The optional fraction part of a JSON number, after the integer digits. -/
def numFrac (neg : Bool) (ids : List Char) :
    List Char → Option (Bool × List Char × List Char × Int)
  | [] => numExp neg ids [] []
  | c :: r =>
    if c = '.' then
      let fds := takeWh isDigitCh r
      if fds.isEmpty then none
      else numExp neg ids fds (dropWh isDigitCh r)
    else numExp neg ids [] (c :: r)

/-- The digits-and-onward part of a JSON number, after the optional minus:
integer digits without a leading zero, then fraction and exponent. -/
def numPartsBody (neg : Bool) (l : List Char) :
    Option (Bool × List Char × List Char × Int) :=
  let ids := takeWh isDigitCh l
  if ids.isEmpty then none
  else if 1 < ids.length ∧ ids.head? = some '0' then none
  else numFrac neg ids (dropWh isDigitCh l)

/-- The RFC 8259 number grammar over a whole token: optional minus, integer
digits without a leading zero, optional fraction digits, optional exponent.
Returns the sign, digit runs, and exponent when the token is well formed. -/
def numParts : List Char → Option (Bool × List Char × List Char × Int)
  | [] => numPartsBody false []
  | c :: r => if c = '-' then numPartsBody true r else numPartsBody false (c :: r)

/-- Whether a token is a well-formed JSON number. -/
def wellFormedNumber (cs : List Char) : Bool := (numParts cs).isSome

/-- Positivity of a number token, evaluated exactly on its digits: no minus
sign and a nonzero mantissa (z.number().positive()). -/
def numIsPositive (cs : List Char) : Bool :=
  match numParts cs with
  | some (neg, ids, fds, _) => !neg && decide (0 < digitsToNat (ids ++ fds))
  | none => false

/-- The 1000-bound of the schema, evaluated exactly: with mantissa M over
`ids ++ fds` and exponent e, the value is M × 10 ^ (e - fds.length)
(z.number().max(1000)). -/
def numLe1000 (cs : List Char) : Bool :=
  match numParts cs with
  | some (_, ids, fds, e) =>
    let M := digitsToNat (ids ++ fds)
    if _h : (fds.length : Int) ≤ e then
      decide (M * 10 ^ (e - fds.length).toNat ≤ 1000)
    else
      decide (M ≤ 1000 * 10 ^ ((fds.length : Int) - e).toNat)
  | none => false

/-- A value of the JSON fragment the challenge serializes to: strings and
numbers, the latter carried by their decimal numeral — the text
JSON.stringify emits for a JS number and JSON.parse reads back. -/
inductive JVal where
  | str (s : String)
  | num (numeral : String)
deriving Repr, DecidableEq

/-- A JSON value rendered the way JSON.stringify renders it. -/
def renderJVal : JVal → List Char
  | .str s => renderString s
  | .num n => n.data

/-- Well-formedness of a JSON value of the fragment: numbers carry a
well-formed numeral. -/
def JValWF : JVal → Prop
  | .str _ => True
  | .num n => wellFormedNumber n.data = true

/-- One object member: quoted key, colon, value. -/
def renderMember (m : String × JVal) : List Char :=
  renderString m.1 ++ ':' :: renderJVal m.2

/-- Comma-separated members. -/
def renderMembers : List (String × JVal) → List Char
  | [] => []
  | [m] => renderMember m
  | m :: ms => renderMember m ++ ',' :: renderMembers ms

/-- JSON.stringify of a flat object: braces around the members, no
whitespace. -/
def stringifyJson (ms : List (String × JVal)) : String :=
  String.mk ('{' :: (renderMembers ms ++ ['}']))

/-- One JSON value read back: a string literal, or a maximal number token
that must be well formed. -/
def parseJValue (l : List Char) : Option (JVal × List Char) :=
  match l with
  | [] => none
  | c :: rest =>
    if c = '"' then
      (parseStringAux (rest.length + 1) [] rest).map (fun p => (JVal.str p.1, p.2))
    else
      let ds := takeWh isNumChar l
      if wellFormedNumber ds then some (.num (String.mk ds), dropWh isNumChar l)
      else none

/-- The members of an object body (after the opening brace), one key/value
pair per step. -/
def parseMembersAux : Nat → List Char → Option (List (String × JVal) × List Char)
  | 0, _ => none
  | fuel + 1, l =>
    match l with
    | [] => none
    | c :: rest =>
      if c = '"' then
        match parseStringAux (rest.length + 1) [] rest with
        | some (k, r1) =>
          match r1 with
          | c1 :: r2 =>
            if c1 = ':' then
              match parseJValue r2 with
              | some (v, r3) =>
                match r3 with
                | c2 :: r4 =>
                  if c2 = ',' then
                    (parseMembersAux fuel r4).map (fun p => ((k, v) :: p.1, p.2))
                  else if c2 = '}' then some ([(k, v)], r4)
                  else none
                | [] => none
              | none => none
            else none
          | [] => none
        | none => none
      else none

/-- JSON.parse restricted to the flat-object fragment JSON.stringify of a
challenge produces (no whitespace, string and number values). -/
def parseJsonObject (s : String) : Option (List (String × JVal)) :=
  match s.data with
  | c :: rest =>
    if c = '{' then
      if rest = ['}'] then some []
      else
        match parseMembersAux (rest.length + 1) rest with
        | some (ms, r) => if r.isEmpty then some ms else none
        | none => none
    else none
  | [] => none

/-- JSON object field lookup; for duplicate keys JSON.parse keeps the last
occurrence, hence the reverse. -/
def jsonLookup (ms : List (String × JVal)) (k : String) : Option JVal :=
  (ms.reverse.find? fun m => decide (m.1 = k)).map (·.2)

/-- A payment challenge (schemas/payment.ts, paymentChallengeSchema).  The
JS number `amount` is modelled by its decimal numeral, the text it has on
the wire; the numeric schema bounds are evaluated exactly on that numeral. -/
structure PaymentChallenge where
  protocol : String
  amount : String
  currency : String
  network : String
  address : String
  nonce : String
  facilitatorUrl : Option String := none
  timestamp : String
  expiresAt : String
deriving Repr, DecidableEq

/-- Consume exactly `n` digits. -/
def digitsN : Nat → List Char → Option (List Char)
  | 0, l => some l
  | n + 1, c :: r => if isDigitCh c then digitsN n r else none
  | _ + 1, [] => none

/-- Consume one expected character. -/
def expectCh (c : Char) : List Char → Option (List Char)
  | x :: r => if x = c then some r else none
  | [] => none

/-- The z.string().datetime() validation of Zod: an ISO 8601 UTC instant,
`YYYY-MM-DDTHH:mm:ss`, optional fraction of arbitrary precision, and a
terminating `Z` (the default datetime regex; no offsets). -/
def isDatetime (s : String) : Bool :=
  (do
    let r ← digitsN 4 s.data
    let r ← expectCh '-' r
    let r ← digitsN 2 r
    let r ← expectCh '-' r
    let r ← digitsN 2 r
    let r ← expectCh 'T' r
    let r ← digitsN 2 r
    let r ← expectCh ':' r
    let r ← digitsN 2 r
    let r ← expectCh ':' r
    let r ← digitsN 2 r
    let r : List Char ←
      match r with
      | '.' :: r2 =>
        let ds := takeWh isDigitCh r2
        if ds.isEmpty then none else some (dropWh isDigitCh r2)
      | _ => some r
    let r ← expectCh 'Z' r
    if r.isEmpty then some () else none).isSome

/-- An ASCII letter. -/
def isAlphaCh (c : Char) : Bool :=
  (97 ≤ c.toNat && c.toNat ≤ 122) || (65 ≤ c.toNat && c.toNat ≤ 90)

/-- The z.string().url() validation, modelled as: a nonempty letter scheme,
the `://` separator, and a nonempty remainder.  This deterministic stand-in
abstracts the WHATWG URL constructor Zod delegates to; the round-trip law
only relies on the check being a pure predicate evaluated identically on
both sides. -/
def isValidUrl (s : String) : Bool :=
  let scheme := takeWh isAlphaCh s.data
  match dropWh isAlphaCh s.data with
  | ':' :: '/' :: '/' :: r => !scheme.isEmpty && !r.isEmpty
  | _ => false

/-- paymentChallengeSchema as a predicate: the literal protocol tag, the
numeric bounds on amount, the currency and network enums, the length bounds
on address and nonce, the optional facilitator URL, and the two datetime
fields. -/
def schemaCheckChallenge (c : PaymentChallenge) : Bool :=
  c.protocol == "x402" &&
  wellFormedNumber c.amount.data &&
  numIsPositive c.amount.data &&
  numLe1000 c.amount.data &&
  (c.currency == "USDC" || c.currency == "USDT" || c.currency == "SOL") &&
  (c.network == "solana" || c.network == "ethereum" || c.network == "base" ||
    c.network == "polygon") &&
  (decide (1 ≤ c.address.length) && decide (c.address.length ≤ 128)) &&
  (decide (16 ≤ c.nonce.length) && decide (c.nonce.length ≤ 128)) &&
  (match c.facilitatorUrl with
   | some u => isValidUrl u
   | none => true) &&
  isDatetime c.timestamp &&
  isDatetime c.expiresAt

/-- The members of the JSON object a schema-validated challenge serializes
to, in Zod shape order; an absent optional facilitatorUrl is omitted, the
way JSON.stringify omits an undefined property. -/
def challengeMembers (c : PaymentChallenge) : List (String × JVal) :=
  [("protocol", .str c.protocol), ("amount", .num c.amount),
   ("currency", .str c.currency), ("network", .str c.network),
   ("address", .str c.address), ("nonce", .str c.nonce)] ++
  (match c.facilitatorUrl with
   | some u => [("facilitatorUrl", JVal.str u)]
   | none => []) ++
  [("timestamp", .str c.timestamp), ("expiresAt", .str c.expiresAt)]

/-- paymentChallengeSchema.parse applied to a parsed JSON object: field
lookup by name with type tags checked, unknown keys stripped, then the same
schema predicate. -/
def challengeOfMembers (ms : List (String × JVal)) : Option PaymentChallenge :=
  match jsonLookup ms "protocol", jsonLookup ms "amount", jsonLookup ms "currency",
      jsonLookup ms "network", jsonLookup ms "address", jsonLookup ms "nonce",
      jsonLookup ms "timestamp", jsonLookup ms "expiresAt" with
  | some (.str pr), some (.num am), some (.str cu), some (.str ne),
    some (.str ad), some (.str no), some (.str ts), some (.str ex) =>
    match jsonLookup ms "facilitatorUrl" with
    | none =>
      let c : PaymentChallenge :=
        { protocol := pr, amount := am, currency := cu, network := ne
          address := ad, nonce := no, facilitatorUrl := none
          timestamp := ts, expiresAt := ex }
      if schemaCheckChallenge c then some c else none
    | some (.str u) =>
      let c : PaymentChallenge :=
        { protocol := pr, amount := am, currency := cu, network := ne
          address := ad, nonce := no, facilitatorUrl := some u
          timestamp := ts, expiresAt := ex }
      if schemaCheckChallenge c then some c else none
    | some _ => none
  | _, _, _, _, _, _, _, _ => none

/-- schemas/payment.ts `encodePaymentChallenge`: validate with the schema
(a Zod failure throws, modelled as none), JSON.stringify the validated
object, base64 the UTF-8 bytes. -/
def encodePaymentChallenge (c : PaymentChallenge) : Option String :=
  if schemaCheckChallenge c then
    some (String.mk (b64encode (utf8Encode (stringifyJson (challengeMembers c)).data)))
  else none

/-- The decoding the round-trip law composes with the encoder: base64 decode
to bytes, UTF-8 decode to text, JSON.parse, then
paymentChallengeSchema.parse.  The repository defines no challenge decoder
of its own (parsePaymentProofHeader is the proof-side analogue); this is the
inverse pipeline the specification describes. -/
def decodePaymentChallengeToken (tok : String) : Option PaymentChallenge := do
  let bytes ← b64decode tok.data
  let chars ← utf8Decode bytes
  let ms ← parseJsonObject (String.mk chars)
  challengeOfMembers ms

/-- A concrete schema-valid challenge, as createChallenge issues it. -/
def sampleChallenge : PaymentChallenge :=
  { protocol := "x402", amount := "0.01", currency := "USDC", network := "solana"
    address := "https://facilitator.payai.network"
    nonce := "nonce-1700000000000-0123456789abcdef"
    facilitatorUrl := some "https://facilitator.payai.network"
    timestamp := "2026-10-11T12:00:00.000Z"
    expiresAt := "2026-10-11T12:05:00.000Z" }

end X402

namespace X402

/-- C4: an out-of-tolerance amount forces the amount-mismatch error, whatever
the timestamp and signature are: the amount check is the first of the three
ordered checks of the simulated strategy. -/
theorem mock_amount_mismatch_first (now : ℚ) (proof : PaymentProof)
    (expectedAmount : ℚ) (endpoint : String)
    (h : |proof.amount - expectedAmount| > 1 / 1000) :
    (MockPaymentValidator.validatePayment now proof expectedAmount endpoint).valid = false ∧
    (MockPaymentValidator.validatePayment now proof expectedAmount endpoint).error =
      some (.amountMismatch expectedAmount proof.amount) := by
  simp only [MockPaymentValidator.validatePayment]
  rw [if_pos h]
  exact ⟨rfl, rfl⟩

/-- Witness for C4: a proof paying 0.02 against an expected 0.01, with a fresh
timestamp and a long signature, is rejected with the amount-mismatch error. -/
theorem mock_amount_mismatch_first_witness :
    (|overpayingProof.amount - 1 / 100| > 1 / 1000) ∧
    (MockPaymentValidator.validatePayment 0 overpayingProof
      (1 / 100) "/api/v1/wallet/x/overview").valid = false ∧
    (MockPaymentValidator.validatePayment 0 overpayingProof
      (1 / 100) "/api/v1/wallet/x/overview").error =
      some (.amountMismatch (1 / 100) overpayingProof.amount) := by
  have h : |overpayingProof.amount - 1 / 100| > 1 / 1000 := by
    rw [gt_iff_lt, lt_abs]
    left
    norm_num [overpayingProof]
  obtain ⟨h1, h2⟩ :=
    mock_amount_mismatch_first 0 overpayingProof (1 / 100) "/api/v1/wallet/x/overview" h
  exact ⟨h, h1, h2⟩

/-- Shared helper: on any invalid outcome, `validatePayment` leaves the store
untouched — the early returns are read-only, and the store/delete pair is
guarded by `validation.valid`. -/
theorem validatePayment_store_of_invalid (env : Env) (st : Store)
    (proof : PaymentProof) (amt : ℚ) (ep : String)
    (h : (PaymentValidator.validatePayment env st proof amt ep).1.valid = false) :
    (PaymentValidator.validatePayment env st proof amt ep).2.1 = st := by
  simp only [PaymentValidator.validatePayment] at h ⊢
  split_ifs at h ⊢ <;> first | rfl | simp_all

/-- C10: whenever `validatePayment` returns an invalid ValidatedPayment
(unknown nonce, replay, or strategy rejection), it mutates no state: the
nonce store and validation cache keyspace and the `payment_proofs` table come
back exactly as they went in — nonce consumption and ledger insertion happen
only on the valid-result branch. -/
theorem validate_invalid_no_state_mutation (env : Env) (st : Store)
    (proof : PaymentProof) (amt : ℚ) (ep : String)
    (h : (PaymentValidator.validatePayment env st proof amt ep).1.valid = false) :
    (PaymentValidator.validatePayment env st proof amt ep).2.1.rows = st.rows ∧
    (PaymentValidator.validatePayment env st proof amt ep).2.1.cache = st.cache := by
  rw [validatePayment_store_of_invalid env st proof amt ep h]
  exact ⟨rfl, rfl⟩

/-- Deleting a cache key never touches the database rows. -/
theorem cacheDelete_rows (env : Env) (st : Store) (k : String) :
    (cacheDelete env st k).rows = st.rows := by
  unfold cacheDelete
  split_ifs <;> rfl

/-- Setting a cache key never touches the database rows. -/
theorem cacheSet_rows (env : Env) (st : Store) (k : String) (v : CacheVal)
    (t : Option Nat) : (cacheSet env st k v t).rows = st.rows := by
  unfold cacheSet
  split_ifs <;> rfl

/-- Storing a payment never touches the cache keyspace. -/
theorem storePayment_cache (env : Env) (st : Store) (p : ValidatedPayment) :
    (PaymentValidator.storePayment env st p).cache = st.cache := by
  unfold PaymentValidator.storePayment
  split_ifs <;> rfl

/-- A failing INSERT leaves the table exactly as it was. -/
theorem storePayment_of_insertFails (env : Env) (st : Store)
    (p : ValidatedPayment) (h : env.dbInsertFails = true) :
    PaymentValidator.storePayment env st p = st := by
  unfold PaymentValidator.storePayment
  rw [if_pos (Or.inl h)]

/-- Witness for C10: a facilitator rejection against the outstanding
challenge leaves both the cache and the table unchanged. -/
theorem validate_invalid_no_state_mutation_witness :
    (PaymentValidator.validatePayment rejectingPayaiEnv challengeStore baseProof
      (1 / 100) "/api/v1/wallet/w/overview").1.valid = false ∧
    (PaymentValidator.validatePayment rejectingPayaiEnv challengeStore baseProof
      (1 / 100) "/api/v1/wallet/w/overview").2.1.rows = challengeStore.rows ∧
    (PaymentValidator.validatePayment rejectingPayaiEnv challengeStore baseProof
      (1 / 100) "/api/v1/wallet/w/overview").2.1.cache = challengeStore.cache :=
  ⟨by decide,
    validate_invalid_no_state_mutation rejectingPayaiEnv challengeStore baseProof
      (1 / 100) "/api/v1/wallet/w/overview" (by decide)⟩

/-- Filtering out a different key does not change which entry a lookup
finds. -/
theorem find?_filter_keyNe (l : List CacheEntry) (k k2 : String) (h : k ≠ k2) :
    (l.filter fun e => !decide (e.key = k2)).find? (fun e => decide (e.key = k)) =
      l.find? (fun e => decide (e.key = k)) := by
  induction l with
  | nil => rfl
  | cons e tl ih =>
    by_cases he : e.key = k2
    · rw [List.filter_cons_of_neg (by simp [he]),
        List.find?_cons_of_neg _ (by simp [he, Ne.symm h]), ih]
    · rw [List.filter_cons_of_pos (by simp [he])]
      by_cases hk : e.key = k
      · rw [List.find?_cons_of_pos _ (by simp [hk]),
          List.find?_cons_of_pos _ (by simp [hk])]
      · rw [List.find?_cons_of_neg _ (by simp [hk]),
          List.find?_cons_of_neg _ (by simp [hk]), ih]

/-- A lookup after deleting the same key misses. -/
theorem cacheGet_cacheDelete_self (env : Env) (st : Store) (k : String) :
    cacheGet env (cacheDelete env st k) k = none := by
  unfold cacheGet cacheDelete
  by_cases hr : env.redisConnected
  · have hnone : (st.cache.filter fun e => !decide (e.key = k)).find?
        (fun e => decide (e.key = k)) = none := by
      rw [List.find?_eq_none]
      intro e he
      rw [List.mem_filter] at he
      simpa using he.2
    simp [hr, hnone]
  · simp [hr]

/-- A lookup after deleting a different key is unchanged. -/
theorem cacheGet_cacheDelete_ne (env : Env) (st : Store) (k k2 : String)
    (h : k ≠ k2) :
    cacheGet env (cacheDelete env st k2) k = cacheGet env st k := by
  unfold cacheGet cacheDelete
  by_cases hr : env.redisConnected
  · simp only [hr, if_true]
    rw [find?_filter_keyNe st.cache k k2 h]
  · simp [hr]

/-- A lookup right after setting the same key returns the set value. -/
theorem cacheGet_cacheSet_self (env : Env) (st : Store) (k : String)
    (v : CacheVal) (t : Option Nat) (hr : env.redisConnected = true) :
    cacheGet env (cacheSet env st k v t) k = some v := by
  unfold cacheGet cacheSet
  simp [hr, List.find?_cons]

/-- A lookup after setting a different key is unchanged. -/
theorem cacheGet_cacheSet_ne (env : Env) (st : Store) (k k2 : String)
    (v : CacheVal) (t : Option Nat) (h : k ≠ k2) :
    cacheGet env (cacheSet env st k2 v t) k = cacheGet env st k := by
  unfold cacheGet cacheSet
  by_cases hr : env.redisConnected
  · simp only [hr, if_true]
    rw [List.find?_cons_of_neg _ (by simp [Ne.symm h]),
      find?_filter_keyNe st.cache k k2 h]
  · simp [hr]

/-- Lookups read only the cache component of the store. -/
theorem cacheGet_congr_cache (env : Env) (st1 st2 : Store) (k : String)
    (h : st1.cache = st2.cache) : cacheGet env st1 k = cacheGet env st2 k := by
  unfold cacheGet
  rw [h]

/-- The nonce-key family and the validated-key family of cache keys are
disjoint: they differ at the character after the shared "payment:" prefix. -/
theorem nonceKey_ne_validatedKey (n m e : String) :
    ("payment:nonce:" ++ n) ≠ ("payment:validated:" ++ m ++ ":" ++ e) := by
  intro h
  have h2 := congrArg String.data h
  simp only [String.data_append] at h2
  simp at h2

/-- Two validated-cache keys for the same nonce agree only when the endpoint
parts agree. -/
theorem validatedKey_endpoint_inj (n a b : String)
    (h : "payment:validated:" ++ n ++ ":" ++ a =
         "payment:validated:" ++ n ++ ":" ++ b) : a = b := by
  have h2 := congrArg String.data h
  simp only [String.data_append, List.append_assoc] at h2
  have h3 := List.append_cancel_left (List.append_cancel_left (List.append_cancel_left h2))
  exact congrArg String.mk h3

/-- The simulated strategy always reports on the proof it was given. -/
theorem mock_validate_proof (now : ℚ) (p : PaymentProof) (amt : ℚ) (ep : String) :
    (MockPaymentValidator.validatePayment now p amt ep).proof = p := by
  simp only [MockPaymentValidator.validatePayment]
  split_ifs <;> rfl

/-- Under an oracle that echoes its proof (as payai.ts does), every strategy
reports on the proof it was given. -/
theorem strategyValidate_proof (env : Env) (p : PaymentProof) (amt : ℚ)
    (ep : String) (hOracle : ∀ q a e, (env.payaiValidate q a e).proof = q) :
    (PaymentValidator.strategyValidate env p amt ep).proof = p := by
  unfold PaymentValidator.strategyValidate
  cases hm : env.mode
  · exact mock_validate_proof env.now p amt ep
  · exact hOracle p amt ep
  · exact hOracle p amt ep

/-- Shape of a successful validation: the result is the strategy verdict, the
final store is the ledger insert followed by the nonce delete, the ledger
check reported the nonce unused, and the nonce gate passed. -/
theorem validatePayment_succ_shape (env : Env) (st : Store) (p : PaymentProof)
    (amt : ℚ) (ep : String)
    (hv : (PaymentValidator.validatePayment env st p amt ep).1.valid = true) :
    (PaymentValidator.validatePayment env st p amt ep).1 =
      PaymentValidator.strategyValidate env p amt ep ∧
    (PaymentValidator.validatePayment env st p amt ep).2.1 =
      cacheDelete env
        (PaymentValidator.storePayment env st
          (PaymentValidator.strategyValidate env p amt ep))
        ("payment:nonce:" ++ p.nonce) ∧
    PaymentValidator.getPaymentByNonce env st p.nonce = false ∧
    (env.mode = Mode.mock ∨ cacheGet env st ("payment:nonce:" ++ p.nonce) ≠ none) := by
  simp only [PaymentValidator.validatePayment] at hv ⊢
  split_ifs at hv ⊢ <;>
    first
      | exact ⟨rfl, rfl, by simp_all, by tauto⟩
      | simp_all [PaymentValidator.invalidResult]

/-- Counterexample to C1: with the strategy accepting and the ledger INSERT
failing (any failure, a unique-constraint violation included), the row is not
persisted (`rows` stays empty) yet `validatePayment` still returns a
successful ValidatedPayment with no error — the insert failure neither
becomes ReplayDetected nor fails the request. -/
theorem store_failure_still_succeeds :
    (PaymentValidator.validatePayment insertFailingPayaiEnv challengeStore baseProof
      (1 / 100) "/api/v1/wallet/w/overview").1.valid = true ∧
    (PaymentValidator.validatePayment insertFailingPayaiEnv challengeStore baseProof
      (1 / 100) "/api/v1/wallet/w/overview").1.error = none ∧
    (PaymentValidator.validatePayment insertFailingPayaiEnv challengeStore baseProof
      (1 / 100) "/api/v1/wallet/w/overview").2.1.rows = [] := by
  decide

/-- C1 as amended: a Settlement Ledger insert failure is swallowed by
the try/catch of `storePayment`: the returned ValidatedPayment is exactly the one
a healthy insert would return (in particular a strategy-accepted proof is
still granted access, with no ReplayDetected downgrade), and no row is
persisted. -/
theorem store_failure_swallowed (env : Env) (st : Store) (proof : PaymentProof)
    (amt : ℚ) (ep : String) (h : env.dbInsertFails = true) :
    (PaymentValidator.validatePayment env st proof amt ep).1 =
      (PaymentValidator.validatePayment { env with dbInsertFails := false }
        st proof amt ep).1 ∧
    (PaymentValidator.validatePayment env st proof amt ep).2.1.rows = st.rows := by
  obtain ⟨mode, now, rc, sf, insf, oracle⟩ := env
  simp only at h
  subst h
  constructor
  · simp only [PaymentValidator.validatePayment, cacheGet,
      PaymentValidator.getPaymentByNonce, PaymentValidator.strategyValidate]
    split_ifs <;> rfl
  · simp only [PaymentValidator.validatePayment]
    split_ifs <;>
      simp [cacheDelete_rows, storePayment_of_insertFails]

/-- Witness for C1 (amended): the concrete insert-failure run returns the
same successful payment the healthy run returns, and writes no row. -/
theorem store_failure_swallowed_witness :
    insertFailingPayaiEnv.dbInsertFails = true ∧
    ((PaymentValidator.validatePayment insertFailingPayaiEnv challengeStore baseProof
        (1 / 100) "/api/v1/wallet/w/overview").1 =
      (PaymentValidator.validatePayment
        { insertFailingPayaiEnv with dbInsertFails := false } challengeStore baseProof
        (1 / 100) "/api/v1/wallet/w/overview").1 ∧
    (PaymentValidator.validatePayment insertFailingPayaiEnv challengeStore baseProof
      (1 / 100) "/api/v1/wallet/w/overview").2.1.rows = challengeStore.rows) :=
  ⟨rfl,
    store_failure_swallowed insertFailingPayaiEnv challengeStore baseProof
      (1 / 100) "/api/v1/wallet/w/overview" rfl⟩

/-- Counterexample to C7: with the ledger SELECT failing and the nonce
already settled in the table, `validatePayment` does not surface any
dependency error — it treats the nonce as unused, runs the strategy, and
even grants access to a replayed proof. -/
theorem ledger_check_failure_ignored :
    (PaymentValidator.validatePayment selectFailingPayaiEnv settledStore baseProof
      (1 / 100) "/api/v1/wallet/w/overview").1.valid = true ∧
    (PaymentValidator.validatePayment selectFailingPayaiEnv settledStore baseProof
      (1 / 100) "/api/v1/wallet/w/overview").1.error = none := by
  decide

/-- C7 as amended: when the Settlement Ledger existence check fails, the
error is caught inside `getPaymentByNonce`, which reports the nonce as
unused; the validation result is exactly the one computed against an empty
ledger — the strategy runs and no dependency error reaches the caller. -/
theorem ledger_check_failure_proceeds (env : Env) (st : Store)
    (proof : PaymentProof) (amt : ℚ) (ep : String)
    (h : env.dbSelectFails = true) :
    (PaymentValidator.validatePayment env st proof amt ep).1 =
      (PaymentValidator.validatePayment env { st with rows := [] }
        proof amt ep).1 := by
  obtain ⟨cache, rows⟩ := st
  simp only [PaymentValidator.validatePayment, cacheGet,
    PaymentValidator.getPaymentByNonce, PaymentValidator.strategyValidate, h]
  split_ifs <;> rfl

/-- Witness for C7 (amended): the concrete select-failure run over the
settled store equals the run over the empty ledger. -/
theorem ledger_check_failure_proceeds_witness :
    selectFailingPayaiEnv.dbSelectFails = true ∧
    (PaymentValidator.validatePayment selectFailingPayaiEnv settledStore baseProof
      (1 / 100) "/api/v1/wallet/w/overview").1 =
      (PaymentValidator.validatePayment selectFailingPayaiEnv
        { settledStore with rows := [] } baseProof
        (1 / 100) "/api/v1/wallet/w/overview").1 :=
  ⟨rfl,
    ledger_check_failure_proceeds selectFailingPayaiEnv settledStore baseProof
      (1 / 100) "/api/v1/wallet/w/overview" rfl⟩

/-- C3: when the validation cache holds a successful result under this
(nonce, resource-path) key, the middleware returns exactly that cached
ValidatedPayment, leaves the store untouched, and its only dependency call is
the single validation-cache read — it invokes neither the verification
strategy nor the nonce store nor the Settlement Ledger. -/
theorem cached_result_short_circuits (env : Env) (st : Store)
    (p : PaymentProof) (price : ℚ) (url : String) (v : ValidatedPayment)
    (h : (PaymentValidator.getCachedPayment env st p.nonce url).1 = some v)
    (hv : v.valid = true) :
    x402ProcessPayment env st p price url =
      (v, st, [Effect.cacheGet ("payment:validated:" ++ p.nonce ++ ":" ++ url)]) ∧
    ∀ e ∈ (x402ProcessPayment env st p price url).2.2,
      (∀ m, e ≠ Effect.strategyCall m) ∧ (∀ n, e ≠ Effect.dbSelect n) ∧
      (∀ n, e ≠ Effect.dbInsert n) ∧ (∀ k2, e ≠ Effect.cacheDelete k2) ∧
      (∀ k2, e ≠ Effect.cacheSet k2) := by
  have hsnd : (PaymentValidator.getCachedPayment env st p.nonce url).2 =
      [Effect.cacheGet ("payment:validated:" ++ p.nonce ++ ":" ++ url)] := rfl
  have hpair : PaymentValidator.getCachedPayment env st p.nonce url =
      (some v, [Effect.cacheGet ("payment:validated:" ++ p.nonce ++ ":" ++ url)]) := by
    rw [← h, ← hsnd]
  have hmain : x402ProcessPayment env st p price url =
      (v, st, [Effect.cacheGet ("payment:validated:" ++ p.nonce ++ ":" ++ url)]) := by
    unfold x402ProcessPayment
    rw [hpair]
  refine ⟨hmain, ?_⟩
  rw [hmain]
  intro e he
  simp only [List.mem_singleton] at he
  subst he
  refine ⟨?_, ?_, ?_, ?_, ?_⟩ <;> intro x <;> simp

/-- Witness for C3: with `cachedPayment` already cached, the middleware hands
it back unchanged with a single cache read. -/
theorem cached_result_short_circuits_witness :
    (PaymentValidator.getCachedPayment healthyPayaiEnv cachedStore baseProof.nonce
      "/api/v1/wallet/w/overview").1 = some cachedPayment ∧
    cachedPayment.valid = true ∧
    x402ProcessPayment healthyPayaiEnv cachedStore baseProof (1 / 100)
      "/api/v1/wallet/w/overview" =
      (cachedPayment, cachedStore,
        [Effect.cacheGet ("payment:validated:" ++ baseProof.nonce ++ ":" ++
          "/api/v1/wallet/w/overview")]) :=
  ⟨rfl, rfl,
    (cached_result_short_circuits healthyPayaiEnv cachedStore baseProof (1 / 100)
      "/api/v1/wallet/w/overview" cachedPayment rfl rfl).1⟩

/-- Counterexample to C6: a failed validation attempt is not written to the
validation cache — the store comes back identical and a repeated submission
of the same failed proof misses the cache (and is re-validated). -/
theorem failed_validation_not_cached :
    (x402ProcessPayment rejectingPayaiEnv challengeStore baseProof (1 / 100)
      "/api/v1/wallet/w/overview").1.valid = false ∧
    (x402ProcessPayment rejectingPayaiEnv challengeStore baseProof (1 / 100)
      "/api/v1/wallet/w/overview").2.1 = challengeStore ∧
    (PaymentValidator.getCachedPayment rejectingPayaiEnv
      (x402ProcessPayment rejectingPayaiEnv challengeStore baseProof (1 / 100)
        "/api/v1/wallet/w/overview").2.1
      baseProof.nonce "/api/v1/wallet/w/overview").1 = none :=
  ⟨rfl, rfl, rfl⟩

/-- C6 as amended: after a cache miss, only a valid result is written to the
validation cache (under the (nonce, resource-path) key with the 300-second
TTL); an invalid result leaves the store — validation cache included —
exactly as it was, so a repeated failed submission is re-validated. -/
theorem only_valid_results_cached (env : Env) (st : Store) (p : PaymentProof)
    (price : ℚ) (url : String)
    (hOracle : ∀ q a e, (env.payaiValidate q a e).proof = q)
    (hmiss : (PaymentValidator.getCachedPayment env st p.nonce url).1 = none) :
    ((x402ProcessPayment env st p price url).1.valid = false →
      (x402ProcessPayment env st p price url).2.1 = st) ∧
    ((x402ProcessPayment env st p price url).1.valid = true →
      env.redisConnected = true →
      (PaymentValidator.getCachedPayment env
          (x402ProcessPayment env st p price url).2.1 p.nonce url).1 =
        some (x402ProcessPayment env st p price url).1) := by
  have hsnd : (PaymentValidator.getCachedPayment env st p.nonce url).2 =
      [Effect.cacheGet ("payment:validated:" ++ p.nonce ++ ":" ++ url)] := rfl
  have hpair : PaymentValidator.getCachedPayment env st p.nonce url =
      (none, [Effect.cacheGet ("payment:validated:" ++ p.nonce ++ ":" ++ url)]) := by
    rw [← hmiss, ← hsnd]
  by_cases hval : (PaymentValidator.validatePayment env st p price url).1.valid = true
  · have hproof : (PaymentValidator.validatePayment env st p price url).1.proof = p := by
      rw [(validatePayment_succ_shape env st p price url hval).1]
      exact strategyValidate_proof env p price url hOracle
    have hmain : x402ProcessPayment env st p price url =
        ((PaymentValidator.validatePayment env st p price url).1,
         (PaymentValidator.cachePayment env
           (PaymentValidator.validatePayment env st p price url).2.1
           (PaymentValidator.validatePayment env st p price url).1 url).1,
         [Effect.cacheGet ("payment:validated:" ++ p.nonce ++ ":" ++ url)] ++
           (PaymentValidator.validatePayment env st p price url).2.2 ++
           (PaymentValidator.cachePayment env
             (PaymentValidator.validatePayment env st p price url).2.1
             (PaymentValidator.validatePayment env st p price url).1 url).2) := by
      unfold x402ProcessPayment
      rw [hpair]
      simp only [hval, if_true]
    constructor
    · intro hfalse
      rw [hmain] at hfalse
      simp only [hval] at hfalse
      cases hfalse
    · intro _ hr
      rw [hmain]
      simp only [PaymentValidator.cachePayment, PaymentValidator.getCachedPayment]
      rw [hproof, cacheGet_cacheSet_self env _ _ _ _ hr]
  · have hfalse : (PaymentValidator.validatePayment env st p price url).1.valid = false :=
      by simpa using hval
    have hmain : x402ProcessPayment env st p price url =
        ((PaymentValidator.validatePayment env st p price url).1,
         (PaymentValidator.validatePayment env st p price url).2.1,
         [Effect.cacheGet ("payment:validated:" ++ p.nonce ++ ":" ++ url)] ++
           (PaymentValidator.validatePayment env st p price url).2.2) := by
      unfold x402ProcessPayment
      rw [hpair]
      simp only [hfalse, if_false, Bool.false_eq_true]
    constructor
    · intro _
      rw [hmain]
      exact validatePayment_store_of_invalid env st p price url hfalse
    · intro htrue
      rw [hmain] at htrue
      simp only [hfalse] at htrue
      cases htrue

/-- Witness for C6 (amended): the rejecting run leaves the store unchanged;
the accepting run caches its result under the (nonce, endpoint) key. -/
theorem only_valid_results_cached_witness :
    ((x402ProcessPayment rejectingPayaiEnv challengeStore baseProof (1 / 100)
        "/api/v1/wallet/w/overview").1.valid = false →
      (x402ProcessPayment rejectingPayaiEnv challengeStore baseProof (1 / 100)
        "/api/v1/wallet/w/overview").2.1 = challengeStore) ∧
    ((x402ProcessPayment rejectingPayaiEnv challengeStore baseProof (1 / 100)
        "/api/v1/wallet/w/overview").1.valid = true →
      rejectingPayaiEnv.redisConnected = true →
      (PaymentValidator.getCachedPayment rejectingPayaiEnv
          (x402ProcessPayment rejectingPayaiEnv challengeStore baseProof (1 / 100)
            "/api/v1/wallet/w/overview").2.1 baseProof.nonce
          "/api/v1/wallet/w/overview").1 =
        some (x402ProcessPayment rejectingPayaiEnv challengeStore baseProof (1 / 100)
          "/api/v1/wallet/w/overview").1) :=
  only_valid_results_cached rejectingPayaiEnv challengeStore baseProof (1 / 100)
    "/api/v1/wallet/w/overview" (fun _ _ _ => rfl) (by decide)

/-- Counterexample to C2: in payai mode (any non-mock mode), after a proof is
validated successfully for path A, resubmitting it unchanged for path B is
rejected with the "Invalid or expired nonce" error of the nonce-store check —
not with the replay error derived from the Settlement Ledger check, as the
claim states. -/
theorem cross_endpoint_error_is_nonce_not_replay :
    (x402ProcessPayment healthyPayaiEnv challengeStore baseProof (1 / 100)
      "/api/v1/wallet/w/overview").1.valid = true ∧
    (PaymentValidator.validatePayment healthyPayaiEnv
      (x402ProcessPayment healthyPayaiEnv challengeStore baseProof (1 / 100)
        "/api/v1/wallet/w/overview").2.1
      baseProof (1 / 10) "/api/v1/wallet/w/portfolio").1.valid = false ∧
    (PaymentValidator.validatePayment healthyPayaiEnv
      (x402ProcessPayment healthyPayaiEnv challengeStore baseProof (1 / 100)
        "/api/v1/wallet/w/overview").2.1
      baseProof (1 / 10) "/api/v1/wallet/w/portfolio").1.error =
      some VError.invalidOrExpiredNonce ∧
    some VError.invalidOrExpiredNonce ≠ some VError.replayDetected :=
  ⟨rfl, rfl, rfl, by decide⟩

/-- C2 as amended: resubmitting a successfully validated proof for a
different path B is rejected, and the per-path validation cache holds nothing
for (nonce, B); but the error depends on the mode: in mock mode it is the
replay error from the Settlement Ledger check, while in test/payai modes the
consumed nonce trips the nonce-store check first and the error is "Invalid or
expired nonce". -/
theorem cross_endpoint_reuse_rejected (env : Env) (st : Store)
    (p : PaymentProof) (priceA priceB : ℚ) (A B : String)
    (hOracle : ∀ q a e, (env.payaiValidate q a e).proof = q)
    (hAB : A ≠ B)
    (hsel : env.dbSelectFails = false)
    (hins : env.dbInsertFails = false)
    (hv : (PaymentValidator.validatePayment env st p priceA A).1.valid = true)
    (hBmiss : cacheGet env st ("payment:validated:" ++ p.nonce ++ ":" ++ B) = none) :
    (PaymentValidator.getCachedPayment env
        (PaymentValidator.cachePayment env
          (PaymentValidator.validatePayment env st p priceA A).2.1
          (PaymentValidator.validatePayment env st p priceA A).1 A).1
        p.nonce B).1 = none ∧
    (PaymentValidator.validatePayment env
        (PaymentValidator.cachePayment env
          (PaymentValidator.validatePayment env st p priceA A).2.1
          (PaymentValidator.validatePayment env st p priceA A).1 A).1
        p priceB B).1.valid = false ∧
    (PaymentValidator.validatePayment env
        (PaymentValidator.cachePayment env
          (PaymentValidator.validatePayment env st p priceA A).2.1
          (PaymentValidator.validatePayment env st p priceA A).1 A).1
        p priceB B).1.error =
      some (if env.mode = Mode.mock then VError.replayDetected
            else VError.invalidOrExpiredNonce) := by
  obtain ⟨hfst, hsnd, hledger, -⟩ := validatePayment_succ_shape env st p priceA A hv
  have hvproof : (PaymentValidator.validatePayment env st p priceA A).1.proof = p := by
    rw [hfst]
    exact strategyValidate_proof env p priceA A hOracle
  have hst2 : (PaymentValidator.cachePayment env
      (PaymentValidator.validatePayment env st p priceA A).2.1
      (PaymentValidator.validatePayment env st p priceA A).1 A).1 =
      cacheSet env (PaymentValidator.validatePayment env st p priceA A).2.1
        ("payment:validated:" ++ p.nonce ++ ":" ++ A)
        (.payment (PaymentValidator.validatePayment env st p priceA A).1)
        (some 300) := by
    unfold PaymentValidator.cachePayment
    rw [hvproof]
  have hkeyBA : ("payment:validated:" ++ p.nonce ++ ":" ++ B) ≠
      ("payment:validated:" ++ p.nonce ++ ":" ++ A) :=
    fun hk => hAB ((validatedKey_endpoint_inj p.nonce B A hk).symm)
  have hgetB : cacheGet env
      (PaymentValidator.cachePayment env
        (PaymentValidator.validatePayment env st p priceA A).2.1
        (PaymentValidator.validatePayment env st p priceA A).1 A).1
      ("payment:validated:" ++ p.nonce ++ ":" ++ B) = none := by
    rw [hst2, cacheGet_cacheSet_ne env _ _ _ _ _ hkeyBA, hsnd,
      cacheGet_cacheDelete_ne env _ _ _
        (Ne.symm (nonceKey_ne_validatedKey p.nonce p.nonce B)),
      cacheGet_congr_cache env _ st _
        (storePayment_cache env st
          (PaymentValidator.strategyValidate env p priceA A)),
      hBmiss]
  have hnonce2 : cacheGet env
      (PaymentValidator.cachePayment env
        (PaymentValidator.validatePayment env st p priceA A).2.1
        (PaymentValidator.validatePayment env st p priceA A).1 A).1
      ("payment:nonce:" ++ p.nonce) = none := by
    rw [hst2, cacheGet_cacheSet_ne env _ _ _ _ _
      (nonceKey_ne_validatedKey p.nonce p.nonce A), hsnd, cacheGet_cacheDelete_self]
  have hany : st.rows.any (fun r => decide (r.nonce = p.nonce)) = false := by
    unfold PaymentValidator.getPaymentByNonce at hledger
    rw [hsel] at hledger
    simpa using hledger
  have hrows2 : (PaymentValidator.cachePayment env
      (PaymentValidator.validatePayment env st p priceA A).2.1
      (PaymentValidator.validatePayment env st p priceA A).1 A).1.rows =
      st.rows ++ [PaymentValidator.rowOfPayment
        (PaymentValidator.strategyValidate env p priceA A)] := by
    rw [hst2, cacheSet_rows, hsnd, cacheDelete_rows]
    unfold PaymentValidator.storePayment
    rw [if_neg]
    intro hbad
    rcases hbad with hbad | hbad
    · rw [hins] at hbad
      cases hbad
    · rw [show (PaymentValidator.strategyValidate env p priceA A).proof = p from
        strategyValidate_proof env p priceA A hOracle, hany] at hbad
      cases hbad
  have hA : (PaymentValidator.getCachedPayment env
      (PaymentValidator.cachePayment env
        (PaymentValidator.validatePayment env st p priceA A).2.1
        (PaymentValidator.validatePayment env st p priceA A).1 A).1
      p.nonce B).1 = none := by
    simp only [PaymentValidator.getCachedPayment]
    rw [hgetB]
  refine ⟨hA, ?_⟩
  have hgp2 : PaymentValidator.getPaymentByNonce env
      (PaymentValidator.cachePayment env
        (PaymentValidator.validatePayment env st p priceA A).2.1
        (PaymentValidator.validatePayment env st p priceA A).1 A).1
      p.nonce = true := by
    unfold PaymentValidator.getPaymentByNonce
    rw [hsel]
    simp only [Bool.false_eq_true, if_false, hrows2, List.any_append]
    have heq : (PaymentValidator.strategyValidate env p priceA A).proof = p :=
      strategyValidate_proof env p priceA A hOracle
    simp [PaymentValidator.rowOfPayment, heq]
  generalize PaymentValidator.validatePayment env st p priceA A = R at hnonce2 hgp2 ⊢
  by_cases hm : env.mode = Mode.mock
  · have hc1 : ¬(env.mode ≠ Mode.mock ∧
        cacheGet env (PaymentValidator.cachePayment env R.2.1 R.1 A).1
          ("payment:nonce:" ++ p.nonce) = none) := fun hc => hc.1 hm
    simp only [PaymentValidator.validatePayment]
    rw [if_neg hc1, if_pos hgp2]
    exact ⟨rfl, by simp [PaymentValidator.invalidResult, hm]⟩
  · have hc1 : env.mode ≠ Mode.mock ∧
        cacheGet env (PaymentValidator.cachePayment env R.2.1 R.1 A).1
          ("payment:nonce:" ++ p.nonce) = none := ⟨hm, hnonce2⟩
    simp only [PaymentValidator.validatePayment]
    rw [if_pos hc1]
    exact ⟨rfl, by simp [PaymentValidator.invalidResult, hm]⟩

/-- Witness for C2 (amended): the concrete healthy payai run — validated for
the overview path, resubmitted for the portfolio path — misses the per-path
cache and is rejected with the mode-dependent error (here the nonce-store
error, since the mode is payai). -/
theorem cross_endpoint_reuse_rejected_witness :
    ("/api/v1/wallet/w/overview" : String) ≠ "/api/v1/wallet/w/portfolio" ∧
    (PaymentValidator.validatePayment healthyPayaiEnv challengeStore baseProof
      (1 / 100) "/api/v1/wallet/w/overview").1.valid = true ∧
    (PaymentValidator.validatePayment healthyPayaiEnv
        (PaymentValidator.cachePayment healthyPayaiEnv
          (PaymentValidator.validatePayment healthyPayaiEnv challengeStore baseProof
            (1 / 100) "/api/v1/wallet/w/overview").2.1
          (PaymentValidator.validatePayment healthyPayaiEnv challengeStore baseProof
            (1 / 100) "/api/v1/wallet/w/overview").1 "/api/v1/wallet/w/overview").1
        baseProof (1 / 10) "/api/v1/wallet/w/portfolio").1.error =
      some (if healthyPayaiEnv.mode = Mode.mock then VError.replayDetected
            else VError.invalidOrExpiredNonce) :=
  ⟨by decide, rfl,
    (cross_endpoint_reuse_rejected healthyPayaiEnv challengeStore baseProof
      (1 / 100) (1 / 10) "/api/v1/wallet/w/overview" "/api/v1/wallet/w/portfolio"
      (fun _ _ _ => rfl) (by decide) rfl rfl rfl rfl).2.2⟩

/-- C5: for a fetched transaction that passed the success, timestamp, age,
transfer-located and mint checks, verifyOnChainPayment reports the
insufficient-payment rejection exactly when the transferred amount is
strictly below the required atomic amount; any transferred amount greater
than or equal to the requirement — overpayment included — passes the amount
check. -/
theorem onchain_insufficient_iff_lt (now : Int) (txSignature fromAddress : String)
    (req : X402PaymentRequirement) (tx : FetchedTransaction) (blockTime : Int)
    (hsig : txSignature ≠ "")
    (herr : tx.metaErr = false)
    (hbt : tx.blockTime = some blockTime)
    (hage : now - blockTime ≤ MAX_TRANSACTION_AGE_SECONDS)
    (hfound : (scanTransfers tx.instructions).foundTransfer = true)
    (hmint : (scanTransfers tx.instructions).transferMint = "" ∨
             (scanTransfers tx.instructions).transferMint = USDC_MINT) :
    ((verifyOnChainPayment now txSignature fromAddress req (.found tx)).isValid = false ∧
     (verifyOnChainPayment now txSignature fromAddress req (.found tx)).reason =
       some (.insufficientPayment (scanTransfers tx.instructions).transferAmount
         req.maxAmountRequired)) ↔
      (scanTransfers tx.instructions).transferAmount < req.maxAmountRequired := by
  simp only [verifyOnChainPayment, hbt]
  rw [if_neg hsig, if_neg (by simp [herr]), if_neg (not_lt.mpr hage),
    if_neg (by simp [hfound]),
    if_neg (fun hc => hmint.elim (fun h => hc.1 h) (fun h => hc.2 h))]
  by_cases hlt : (scanTransfers tx.instructions).transferAmount < req.maxAmountRequired
  · rw [if_pos hlt]
    exact iff_of_true ⟨rfl, rfl⟩ hlt
  · rw [if_neg hlt]
    refine iff_of_false ?_ hlt
    split_ifs <;> rintro ⟨-, hre⟩ <;> simp at hre

/-- Witness for C5: the sample USDC transfer of 400000 atomic units against a
500000 requirement is rejected as insufficient; raising the transfer to meet
the requirement is exactly what the equivalence demands. -/
theorem onchain_insufficient_iff_lt_witness :
    ("TxSig11111" : String) ≠ "" ∧
    sampleTx.metaErr = false ∧
    sampleTx.blockTime = some 1000 ∧
    (1100 : Int) - 1000 ≤ MAX_TRANSACTION_AGE_SECONDS ∧
    (scanTransfers sampleTx.instructions).foundTransfer = true ∧
    ((scanTransfers sampleTx.instructions).transferMint = "" ∨
      (scanTransfers sampleTx.instructions).transferMint = USDC_MINT) ∧
    (((verifyOnChainPayment 1100 "TxSig11111"
        "7xKXtg2CW87d97TXJSDpbD5jBkheTqA83TZRuJosgAsU" sampleRequirement
        (.found sampleTx)).isValid = false ∧
      (verifyOnChainPayment 1100 "TxSig11111"
        "7xKXtg2CW87d97TXJSDpbD5jBkheTqA83TZRuJosgAsU" sampleRequirement
        (.found sampleTx)).reason =
        some (.insufficientPayment (scanTransfers sampleTx.instructions).transferAmount
          sampleRequirement.maxAmountRequired)) ↔
      (scanTransfers sampleTx.instructions).transferAmount <
        sampleRequirement.maxAmountRequired) :=
  ⟨by decide, by decide, by decide, by decide, by decide, by decide,
    onchain_insufficient_iff_lt 1100 "TxSig11111"
      "7xKXtg2CW87d97TXJSDpbD5jBkheTqA83TZRuJosgAsU" sampleRequirement sampleTx 1000
      (by decide) (by decide) (by decide) (by decide) (by decide) (by decide)⟩

/-- C9: (a) when the scanned transfer carries no mint (a plain `transfer`
instruction), the asset check is skipped — no wrong-mint rejection can arise
and the transfer is treated as the expected asset; (b) the wrong-mint
rejection occurs exactly when the scanned mint is non-empty and differs from
the USDC mint; (c) when several matching transfer instructions exist, the
last one in instruction order determines the scanned amount and parties. -/
theorem onchain_mint_skip_and_last_match (now : Int)
    (txSignature fromAddress : String) (req : X402PaymentRequirement)
    (tx : FetchedTransaction) (blockTime : Int)
    (hsig : txSignature ≠ "")
    (herr : tx.metaErr = false)
    (hbt : tx.blockTime = some blockTime)
    (hage : now - blockTime ≤ MAX_TRANSACTION_AGE_SECONDS)
    (hfound : (scanTransfers tx.instructions).foundTransfer = true) :
    ((scanTransfers tx.instructions).transferMint = "" →
      ∀ g, (verifyOnChainPayment now txSignature fromAddress req
        (.found tx)).reason ≠ some (.wrongMint g)) ∧
    ((∃ g, (verifyOnChainPayment now txSignature fromAddress req
        (.found tx)).reason = some (.wrongMint g)) ↔
      ((scanTransfers tx.instructions).transferMint ≠ "" ∧
       (scanTransfers tx.instructions).transferMint ≠ USDC_MINT)) ∧
    (∀ (xs : List ParsedInstruction) (i : ParsedInstruction),
      isTransferIx i = true → scanTransfers (xs ++ [i]) = scanOfIx i) := by
  have hb : (∃ g, (verifyOnChainPayment now txSignature fromAddress req
      (.found tx)).reason = some (.wrongMint g)) ↔
      ((scanTransfers tx.instructions).transferMint ≠ "" ∧
       (scanTransfers tx.instructions).transferMint ≠ USDC_MINT) := by
    simp only [verifyOnChainPayment, hbt]
    rw [if_neg hsig, if_neg (by simp [herr]), if_neg (not_lt.mpr hage),
      if_neg (by simp [hfound])]
    by_cases hm : (scanTransfers tx.instructions).transferMint ≠ "" ∧
        (scanTransfers tx.instructions).transferMint ≠ USDC_MINT
    · rw [if_pos hm]
      exact iff_of_true ⟨(scanTransfers tx.instructions).transferMint, rfl⟩ hm
    · rw [if_neg hm]
      refine iff_of_false ?_ hm
      rintro ⟨g, hg⟩
      revert hg
      split_ifs <;> intro hg <;> simp at hg
  refine ⟨?_, hb, ?_⟩
  · intro hmint0 g hg
    exact absurd (hb.mp ⟨g, hg⟩).1 (by simp [hmint0])
  · intro xs i hi
    simp [scanTransfers, List.foldl_append, hi]

/-- Witness for C9: the plain-transfer transaction (no mint in its parsed
info) passes the asset check, the equivalence holds there, and appending a
matching instruction after others makes it the one scanned. -/
theorem onchain_mint_skip_and_last_match_witness :
    ("TxSig11111" : String) ≠ "" ∧
    samplePlainTx.metaErr = false ∧
    samplePlainTx.blockTime = some 1000 ∧
    (1100 : Int) - 1000 ≤ MAX_TRANSACTION_AGE_SECONDS ∧
    (scanTransfers samplePlainTx.instructions).foundTransfer = true ∧
    ((scanTransfers samplePlainTx.instructions).transferMint = "" →
      ∀ g, (verifyOnChainPayment 1100 "TxSig11111"
        "7xKXtg2CW87d97TXJSDpbD5jBkheTqA83TZRuJosgAsU" sampleRequirement
        (.found samplePlainTx)).reason ≠ some (.wrongMint g)) :=
  ⟨by decide, by decide, by decide, by decide, by decide,
    (onchain_mint_skip_and_last_match 1100 "TxSig11111"
      "7xKXtg2CW87d97TXJSDpbD5jBkheTqA83TZRuJosgAsU" sampleRequirement
      samplePlainTx 1000 (by decide) (by decide) (by decide) (by decide)
      (by decide)).1⟩

/-! ### Round-trip lemmas for the codec layers -/

/-- Every sextet decodes back from its base64 digit. -/
theorem decEnc_base64 : ∀ n < 64, decBase64Char (encBase64Char n) = some n := by
  decide

/-- No sextet encodes to the padding character. -/
theorem encBase64Char_ne_pad : ∀ n < 64, encBase64Char n ≠ '=' := by
  decide

/-- Base64 inverts on byte lists. -/
theorem b64decode_b64encode : ∀ (bs : List Nat), (∀ b ∈ bs, b < 256) →
    b64decode (b64encode bs) = some bs
  | [], _ => rfl
  | [a], h => by
    have ha : a < 256 := h a (by simp)
    have h1 := decEnc_base64 (a / 4) (by omega)
    have h2 := decEnc_base64 (a % 4 * 16) (by omega)
    simp only [b64encode, b64decode, if_pos rfl, h1, h2, and_self, if_true,
      Option.bind_eq_bind, Option.some_bind]
    refine congrArg some (congrArg (fun x => [x]) ?_)
    omega
  | [a, b], h => by
    have ha : a < 256 := h a (by simp)
    have hb : b < 256 := h b (by simp)
    have h1 := decEnc_base64 (a / 4) (by omega)
    have h2 := decEnc_base64 (a % 4 * 16 + b / 16) (by omega)
    have h3 := decEnc_base64 (b % 16 * 4) (by omega)
    have hne := encBase64Char_ne_pad (b % 16 * 4) (by omega)
    simp only [b64encode, b64decode, if_neg hne, if_pos rfl, if_pos rfl, h1, h2,
      h3, Option.bind_eq_bind, Option.some_bind]
    refine congrArg some ?_
    have e1 : (a / 4) * 4 + (a % 4 * 16 + b / 16) / 16 = a := by omega
    have e2 : (a % 4 * 16 + b / 16) % 16 * 16 + (b % 16 * 4) / 4 = b := by omega
    rw [e1, e2]
  | a :: b :: c :: d :: rest, h => by
    have ha : a < 256 := h a (by simp)
    have hb : b < 256 := h b (by simp)
    have hc : c < 256 := h c (by simp)
    have ih := b64decode_b64encode (d :: rest) (fun x hx => h x (by simp [hx]))
    have h1 := decEnc_base64 (a / 4) (by omega)
    have h2 := decEnc_base64 (a % 4 * 16 + b / 16) (by omega)
    have h3 := decEnc_base64 (b % 16 * 4 + c / 64) (by omega)
    have h4 := decEnc_base64 (c % 64) (by omega)
    have hne3 := encBase64Char_ne_pad (b % 16 * 4 + c / 64) (by omega)
    have hne4 := encBase64Char_ne_pad (c % 64) (by omega)
    simp only [b64encode, b64decode, if_neg hne3, if_neg hne4, h1, h2, h3, h4,
      ih, Option.bind_eq_bind, Option.some_bind]
    refine congrArg some ?_
    have e1 : (a / 4) * 4 + (a % 4 * 16 + b / 16) / 16 = a := by omega
    have e2 : (a % 4 * 16 + b / 16) % 16 * 16 + (b % 16 * 4 + c / 64) / 4 = b := by
      omega
    have e3 : (b % 16 * 4 + c / 64) % 4 * 64 + c % 64 = c := by omega
    rw [e1, e2, e3]
  | [a, b, c], h => by
    have ha : a < 256 := h a (by simp)
    have hb : b < 256 := h b (by simp)
    have hc : c < 256 := h c (by simp)
    have h1 := decEnc_base64 (a / 4) (by omega)
    have h2 := decEnc_base64 (a % 4 * 16 + b / 16) (by omega)
    have h3 := decEnc_base64 (b % 16 * 4 + c / 64) (by omega)
    have h4 := decEnc_base64 (c % 64) (by omega)
    have hne3 := encBase64Char_ne_pad (b % 16 * 4 + c / 64) (by omega)
    have hne4 := encBase64Char_ne_pad (c % 64) (by omega)
    simp only [b64encode, b64decode, if_neg hne3, if_neg hne4, h1, h2, h3, h4,
      Option.bind_eq_bind, Option.some_bind]
    refine congrArg some ?_
    have e1 : (a / 4) * 4 + (a % 4 * 16 + b / 16) / 16 = a := by omega
    have e2 : (a % 4 * 16 + b / 16) % 16 * 16 + (b % 16 * 4 + c / 64) / 4 = b := by
      omega
    have e3 : (b % 16 * 4 + c / 64) % 4 * 64 + c % 64 = c := by omega
    rw [e1, e2, e3]

/-- Every character code is below the Unicode scalar bound. -/
theorem char_toNat_lt (c : Char) : c.toNat < 1114112 := by
  have h := c.valid
  simp only [UInt32.isValidChar, Nat.isValidChar] at h
  rw [Char.toNat]
  rcases h with h | ⟨_, h⟩ <;> omega

/-- Decoding consumes exactly the bytes one character encodes to. -/
theorem utf8DecodeStep_encodeChar (c : Char) (rest : List Nat) :
    utf8DecodeStep (utf8EncodeChar c ++ rest) = some (c, rest) := by
  have hlt := char_toNat_lt c
  by_cases h1 : c.toNat < 128
  · rw [show utf8EncodeChar c ++ rest = c.toNat :: rest from by
      simp only [utf8EncodeChar]
      rw [if_pos h1]
      rfl]
    simp only [utf8DecodeStep]
    rw [if_pos h1, Char.ofNat_toNat]
  · by_cases h2 : c.toNat < 2048
    · rw [show utf8EncodeChar c ++ rest =
          (192 + c.toNat / 64) :: (128 + c.toNat % 64) :: rest from by
        simp only [utf8EncodeChar]
        rw [if_neg h1, if_pos h2]
        rfl]
      simp only [utf8DecodeStep]
      rw [if_neg (by omega : ¬192 + c.toNat / 64 < 128),
        if_neg (by omega : ¬192 + c.toNat / 64 < 192),
        if_pos (by omega : 192 + c.toNat / 64 < 224),
        if_pos (show isCont (128 + c.toNat % 64) = true by
          simp only [isCont, Bool.and_eq_true, decide_eq_true_eq]
          omega)]
      rw [show (192 + c.toNat / 64 - 192) * 64 + (128 + c.toNat % 64 - 128)
          = c.toNat from by omega, Char.ofNat_toNat]
    · by_cases h3 : c.toNat < 65536
      · rw [show utf8EncodeChar c ++ rest = (224 + c.toNat / 4096) ::
            (128 + c.toNat / 64 % 64) :: (128 + c.toNat % 64) :: rest from by
          simp only [utf8EncodeChar]
          rw [if_neg h1, if_neg h2, if_pos h3]
          rfl]
        simp only [utf8DecodeStep]
        rw [if_neg (by omega : ¬224 + c.toNat / 4096 < 128),
          if_neg (by omega : ¬224 + c.toNat / 4096 < 192),
          if_neg (by omega : ¬224 + c.toNat / 4096 < 224),
          if_pos (by omega : 224 + c.toNat / 4096 < 240),
          if_pos (show (isCont (128 + c.toNat / 64 % 64) &&
              isCont (128 + c.toNat % 64)) = true by
            simp only [isCont, Bool.and_eq_true, decide_eq_true_eq]
            omega)]
        rw [show (224 + c.toNat / 4096 - 224) * 4096 +
            (128 + c.toNat / 64 % 64 - 128) * 64 + (128 + c.toNat % 64 - 128)
            = c.toNat from by omega, Char.ofNat_toNat]
      · rw [show utf8EncodeChar c ++ rest = (240 + c.toNat / 262144) ::
            (128 + c.toNat / 4096 % 64) :: (128 + c.toNat / 64 % 64) ::
            (128 + c.toNat % 64) :: rest from by
          simp only [utf8EncodeChar]
          rw [if_neg h1, if_neg h2, if_neg h3]
          rfl]
        simp only [utf8DecodeStep]
        rw [if_neg (by omega : ¬240 + c.toNat / 262144 < 128),
          if_neg (by omega : ¬240 + c.toNat / 262144 < 192),
          if_neg (by omega : ¬240 + c.toNat / 262144 < 224),
          if_neg (by omega : ¬240 + c.toNat / 262144 < 240),
          if_pos (by omega : 240 + c.toNat / 262144 < 248),
          if_pos (show (isCont (128 + c.toNat / 4096 % 64) &&
              isCont (128 + c.toNat / 64 % 64) &&
              isCont (128 + c.toNat % 64)) = true by
            simp only [isCont, Bool.and_eq_true, decide_eq_true_eq]
            omega)]
        rw [show (240 + c.toNat / 262144 - 240) * 262144 +
            (128 + c.toNat / 4096 % 64 - 128) * 4096 +
            (128 + c.toNat / 64 % 64 - 128) * 64 + (128 + c.toNat % 64 - 128)
            = c.toNat from by omega, Char.ofNat_toNat]

/-- Every character encodes to at least one byte. -/
theorem utf8EncodeChar_length_pos (c : Char) : 1 ≤ (utf8EncodeChar c).length := by
  simp only [utf8EncodeChar]
  split_ifs <;> simp

/-- The fuelled decoder steps through a nonempty input. -/
theorem utf8DecodeAux_cons (fuel : Nat) (b : Nat) (l : List Nat)
    (c : Char) (rest : List Nat)
    (h : utf8DecodeStep (b :: l) = some (c, rest)) :
    utf8DecodeAux (fuel + 1) (b :: l) = (utf8DecodeAux fuel rest).map (c :: ·) := by
  simp only [utf8DecodeAux]
  rw [h]

/-- With enough fuel, the fuelled decoder inverts the encoder. -/
theorem utf8DecodeAux_encode (s : List Char) : ∀ fuel : Nat,
    (utf8Encode s).length ≤ fuel → utf8DecodeAux fuel (utf8Encode s) = some s := by
  induction s with
  | nil => intro fuel _; cases fuel <;> rfl
  | cons c cs ih =>
    intro fuel hfuel
    have hstep : utf8DecodeStep (utf8Encode (c :: cs)) = some (c, utf8Encode cs) := by
      rw [utf8Encode, List.flatMap_cons, ← utf8Encode]
      exact utf8DecodeStep_encodeChar c (utf8Encode cs)
    have hlen : (utf8Encode (c :: cs)).length = (utf8EncodeChar c).length +
        (utf8Encode cs).length := by
      rw [utf8Encode, List.flatMap_cons, ← utf8Encode, List.length_append]
    have hpos := utf8EncodeChar_length_pos c
    obtain ⟨b, l, hbl⟩ : ∃ b l, utf8Encode (c :: cs) = b :: l := by
      cases hx : utf8Encode (c :: cs) with
      | nil => rw [hx] at hlen; simp at hlen; omega
      | cons b l => exact ⟨b, l, rfl⟩
    cases fuel with
    | zero =>
      rw [hlen] at hfuel
      omega
    | succ f =>
      rw [hbl, utf8DecodeAux_cons f b l c (utf8Encode cs) (hbl ▸ hstep),
        ih f (by rw [hlen] at hfuel; omega)]
      rfl

/-- UTF-8 inverts on character lists. -/
theorem utf8Decode_utf8Encode (s : List Char) :
    utf8Decode (utf8Encode s) = some s :=
  utf8DecodeAux_encode s (utf8Encode s).length le_rfl

/-- Every nibble reads back from its hex digit. -/
theorem hexVal_hexDigit : ∀ n < 16, hexVal (hexDigit n) = some n := by
  decide

/-- Reading one escaped character undoes the escape. -/
theorem parseStringStep_escape (c : Char) (rest : List Char) :
    parseStringStep (escapeChar c ++ rest) = some (some c, rest) := by
  by_cases h1 : c = '"'
  · subst h1; rfl
  by_cases h2 : c = '\\'
  · subst h2; rfl
  by_cases h3 : c = '\n'
  · subst h3; rfl
  by_cases h4 : c = '\r'
  · subst h4; rfl
  by_cases h5 : c = '\t'
  · subst h5; rfl
  by_cases h6 : c = Char.ofNat 8
  · subst h6; rfl
  by_cases h7 : c = Char.ofNat 12
  · subst h7; rfl
  by_cases h8 : c.toNat < 32
  · rw [show escapeChar c = ['\\', 'u', '0', '0', hexDigit (c.toNat / 16),
        hexDigit (c.toNat % 16)] from by
      simp only [escapeChar]
      rw [if_neg h1, if_neg h2, if_neg h3, if_neg h4, if_neg h5, if_neg h6,
        if_neg h7, if_pos h8]]
    have ha := hexVal_hexDigit (c.toNat / 16) (by omega)
    have hb := hexVal_hexDigit (c.toNat % 16) (by omega)
    simp only [List.cons_append, List.nil_append, parseStringStep,
      reduceIte, ha, hb]
    rw [if_neg (by decide : ¬('\\' : Char) = '"')]
    show some (some (Char.ofNat (((0 * 16 + 0) * 16 + c.toNat / 16) * 16 +
      c.toNat % 16)), rest) = some (some c, rest)
    rw [show ((0 * 16 + 0) * 16 + c.toNat / 16) * 16 + c.toNat % 16 = c.toNat
      from by omega, Char.ofNat_toNat]
  · rw [show escapeChar c = [c] from by
      simp only [escapeChar]
      rw [if_neg h1, if_neg h2, if_neg h3, if_neg h4, if_neg h5, if_neg h6,
        if_neg h7, if_neg h8]]
    simp only [List.cons_append, List.nil_append, parseStringStep]
    rw [if_neg h1, if_neg h2]

/-- With enough fuel, reading a rendered string body recovers the string and
leaves the continuation untouched. -/
theorem parseStringAux_render (s : List Char) : ∀ (acc : List Char) (fuel : Nat)
    (tail : List Char), (s.flatMap escapeChar).length + 1 ≤ fuel →
    parseStringAux fuel acc (s.flatMap escapeChar ++ '"' :: tail) =
      some (String.mk (acc.reverse ++ s), tail) := by
  induction s with
  | nil =>
    intro acc fuel tail hf
    obtain ⟨f, rfl⟩ : ∃ f, fuel = f + 1 := ⟨fuel - 1, by omega⟩
    simp only [List.flatMap_nil, List.nil_append, parseStringAux,
      parseStringStep, reduceIte, List.append_nil]
  | cons c cs ih =>
    intro acc fuel tail hf
    have hlen : 1 ≤ (escapeChar c).length := by
      simp only [escapeChar]
      split_ifs <;> simp
    rw [List.flatMap_cons] at hf ⊢
    rw [List.length_append] at hf
    obtain ⟨f, rfl⟩ : ∃ f, fuel = f + 1 := ⟨fuel - 1, by omega⟩
    rw [List.append_assoc]
    have hcons : ∃ d t, escapeChar c ++ (cs.flatMap escapeChar ++ '"' :: tail)
        = d :: t := by
      cases hx : escapeChar c with
      | nil => rw [hx] at hlen; simp at hlen
      | cons d t => exact ⟨d, t ++ (cs.flatMap escapeChar ++ '"' :: tail), by
          simp [hx]⟩
    obtain ⟨d, t, hdt⟩ := hcons
    rw [hdt]
    simp only [parseStringAux]
    rw [← hdt, parseStringStep_escape c]
    show parseStringAux f (c :: acc) (cs.flatMap escapeChar ++ '"' :: tail) =
      some (String.mk (acc.reverse ++ c :: cs), tail)
    rw [ih (c :: acc) f tail (by omega), List.reverse_cons, List.append_assoc,
      List.singleton_append]


/-- The bytes one character encodes to are bytes. -/
theorem utf8EncodeChar_lt (c : Char) : ∀ b ∈ utf8EncodeChar c, b < 256 := by
  have hlt := char_toNat_lt c
  intro b hb
  simp only [utf8EncodeChar] at hb
  split_ifs at hb <;> simp at hb <;> omega

/-- The UTF-8 encoding of a character list is a byte list. -/
theorem utf8Encode_lt (s : List Char) : ∀ b ∈ utf8Encode s, b < 256 := by
  intro b hb
  rw [utf8Encode, List.mem_flatMap] at hb
  obtain ⟨c, -, hc⟩ := hb
  exact utf8EncodeChar_lt c b hc

/-- takeWh and dropWh split the list. -/
theorem takeWh_append_dropWh (p : Char → Bool) (l : List Char) :
    takeWh p l ++ dropWh p l = l := by
  induction l with
  | nil => rfl
  | cons c r ih =>
    simp only [takeWh, dropWh]
    by_cases h : p c
    · rw [if_pos h, if_pos h, List.cons_append, ih]
    · rw [if_neg h, if_neg h]
      rfl

/-- Every character takeWh keeps satisfies the predicate. -/
theorem mem_takeWh (p : Char → Bool) (l : List Char) :
    ∀ c ∈ takeWh p l, p c = true := by
  induction l with
  | nil => intro c hc; cases hc
  | cons d r ih =>
    intro c hc
    simp only [takeWh] at hc
    by_cases h : p d
    · rw [if_pos h] at hc
      rcases List.mem_cons.mp hc with rfl | hc2
      · exact h
      · exact ih c hc2
    · rw [if_neg h] at hc
      cases hc

/-- On a satisfying prefix followed by a failing character, takeWh takes the
prefix exactly and dropWh keeps the rest. -/
theorem takeWh_app (p : Char → Bool) (xs : List Char)
    (hxs : ∀ c ∈ xs, p c = true) (y : Char) (hy : p y = false)
    (rest : List Char) :
    takeWh p (xs ++ y :: rest) = xs ∧ dropWh p (xs ++ y :: rest) = y :: rest := by
  induction xs with
  | nil =>
    simp only [List.nil_append, takeWh, dropWh]
    rw [if_neg (by simp [hy]), if_neg (by simp [hy])]
    exact ⟨rfl, rfl⟩
  | cons c xs ih =>
    have hc : p c = true := hxs c (by simp)
    obtain ⟨h1, h2⟩ := ih (fun d hd => hxs d (by simp [hd]))
    simp only [List.cons_append, takeWh, dropWh, List.append_eq]
    rw [if_pos hc, if_pos hc, h1, h2]
    exact ⟨rfl, rfl⟩

/-- A digit is a number character. -/
theorem isNumChar_of_digit (c : Char) (h : isDigitCh c = true) :
    isNumChar c = true := by
  simp [isNumChar, h]

/-- When the exponent-digits reader accepts, every input character is a number
character. -/
theorem numExpDigits_chars (neg : Bool) (ids fds : List Char) (sign : Int)
    (t : List Char) (x : Bool × List Char × List Char × Int)
    (h : numExpDigits neg ids fds sign t = some x) :
    ∀ c ∈ t, isNumChar c = true := by
  simp only [numExpDigits] at h
  split at h
  · cases h
  · rename_i hcond
    rw [not_or, not_not] at hcond
    have hdrop : dropWh isDigitCh t = [] :=
      List.isEmpty_iff.mp hcond.2
    intro c hc
    rw [← takeWh_append_dropWh isDigitCh t, hdrop, List.append_nil] at hc
    exact isNumChar_of_digit c (mem_takeWh isDigitCh t c hc)

/-- When the exponent-tail reader accepts, every input character is a number
character. -/
theorem numExpTail_chars (neg : Bool) (ids fds : List Char) (r : List Char)
    (x : Bool × List Char × List Char × Int)
    (h : numExpTail neg ids fds r = some x) :
    ∀ c ∈ r, isNumChar c = true := by
  rcases r with _ | ⟨c0, t⟩
  · intro c hc; cases hc
  · simp only [numExpTail] at h
    split_ifs at h with h0 h1
    · subst h0
      intro c hc
      rcases List.mem_cons.mp hc with rfl | hc2
      · decide
      · exact numExpDigits_chars neg ids fds 1 t x h c hc2
    · subst h1
      intro c hc
      rcases List.mem_cons.mp hc with rfl | hc2
      · decide
      · exact numExpDigits_chars neg ids fds (-1) t x h c hc2
    · exact numExpDigits_chars neg ids fds 1 (c0 :: t) x h

/-- When the optional-exponent reader accepts, every input character is a
number character. -/
theorem numExp_chars (neg : Bool) (ids fds : List Char) (l : List Char)
    (x : Bool × List Char × List Char × Int)
    (h : numExp neg ids fds l = some x) :
    ∀ c ∈ l, isNumChar c = true := by
  rcases l with _ | ⟨c0, r⟩
  · intro c hc; cases hc
  · simp only [numExp] at h
    split_ifs at h with h0
    · intro c hc
      rcases List.mem_cons.mp hc with rfl | hc2
      · rcases h0 with rfl | rfl <;> decide
      · exact numExpTail_chars neg ids fds r x h c hc2

/-- When the fraction-and-onward reader accepts, every input character is a
number character. -/
theorem numFrac_chars (neg : Bool) (ids : List Char) (l : List Char)
    (x : Bool × List Char × List Char × Int)
    (h : numFrac neg ids l = some x) :
    ∀ c ∈ l, isNumChar c = true := by
  rcases l with _ | ⟨c0, r⟩
  · intro c hc; cases hc
  · simp only [numFrac] at h
    split_ifs at h with h0 h1
    · subst h0
      intro c hc
      rcases List.mem_cons.mp hc with rfl | hc2
      · decide
      · rw [← takeWh_append_dropWh isDigitCh r] at hc2
        rcases List.mem_append.mp hc2 with hmem | hmem
        · exact isNumChar_of_digit c (mem_takeWh isDigitCh r c hmem)
        · exact numExp_chars neg ids (takeWh isDigitCh r)
            (dropWh isDigitCh r) x h c hmem
    · exact numExp_chars neg ids [] (c0 :: r) x h

/-- When the digits-and-onward reader accepts, every input character is a
number character. -/
theorem numPartsBody_chars (neg : Bool) (l : List Char)
    (x : Bool × List Char × List Char × Int)
    (h : numPartsBody neg l = some x) :
    ∀ c ∈ l, isNumChar c = true := by
  simp only [numPartsBody] at h
  split_ifs at h with h0 h1
  · intro c hc
    rw [← takeWh_append_dropWh isDigitCh l] at hc
    rcases List.mem_append.mp hc with hmem | hmem
    · exact isNumChar_of_digit c (mem_takeWh isDigitCh l c hmem)
    · exact numFrac_chars neg (takeWh isDigitCh l) (dropWh isDigitCh l) x h c hmem

/-- Every character of a well-formed number token is a number character. -/
theorem numParts_chars (cs : List Char)
    (x : Bool × List Char × List Char × Int)
    (h : numParts cs = some x) : ∀ c ∈ cs, isNumChar c = true := by
  rcases cs with _ | ⟨c0, r⟩
  · intro c hc; cases hc
  · simp only [numParts] at h
    split_ifs at h with h0
    · subst h0
      intro c hc
      rcases List.mem_cons.mp hc with rfl | hc2
      · decide
      · exact numPartsBody_chars true r x h c hc2
    · exact numPartsBody_chars false (c0 :: r) x h

/-- A nonempty takeWh run certifies its head. -/
theorem takeWh_head (p : Char → Bool) (c : Char) (r : List Char)
    (h : ¬(takeWh p (c :: r)).isEmpty = true) : p c = true := by
  by_cases hp : p c
  · exact hp
  · exact absurd (by simp [takeWh, hp]) h

/-- A well-formed number token starts with a minus sign or a digit. -/
theorem numParts_head (cs : List Char)
    (x : Bool × List Char × List Char × Int)
    (h : numParts cs = some x) :
    ∃ c0 r, cs = c0 :: r ∧ (c0 = '-' ∨ isDigitCh c0 = true) := by
  rcases cs with _ | ⟨c0, r⟩
  · exact absurd h (by simp [numParts, numPartsBody, takeWh])
  · refine ⟨c0, r, rfl, ?_⟩
    simp only [numParts] at h
    split_ifs at h with h0
    · exact Or.inl h0
    · right
      simp only [numPartsBody] at h
      split_ifs at h with hA hB
      exact takeWh_head isDigitCh c0 r hA

/-- Reading back a rendered JSON value, followed by a delimiter that is not a
number character, recovers the value and leaves the delimiter. -/
theorem parseJValue_render (v : JVal) (hwf : JValWF v) (y : Char)
    (rest : List Char) (hy : isNumChar y = false) :
    parseJValue (renderJVal v ++ y :: rest) = some (v, y :: rest) := by
  cases v with
  | str s =>
    simp only [renderJVal, renderString, List.cons_append, parseJValue]
    rw [if_pos trivial, List.append_assoc, List.singleton_append]
    rw [parseStringAux_render s.data []
      ((s.data.flatMap escapeChar ++ '"' :: y :: rest).length + 1) (y :: rest)
      (by simp [List.length_append])]
    rfl
  | num n =>
    have hwfn : wellFormedNumber n.data = true := hwf
    obtain ⟨x, hx⟩ : ∃ x, numParts n.data = some x := by
      rw [wellFormedNumber] at hwfn
      exact Option.isSome_iff_exists.mp hwfn
    obtain ⟨c0, r0, hcs, hc0⟩ := numParts_head n.data x hx
    have hq : ¬(c0 = '"') := by
      rcases hc0 with rfl | hd
      · decide
      · intro he
        rw [he] at hd
        exact absurd hd (by decide)
    have hall : ∀ c ∈ n.data, isNumChar c = true := numParts_chars n.data x hx
    obtain ⟨htake, hdrop⟩ := takeWh_app isNumChar n.data hall y hy rest
    simp only [renderJVal]
    rw [hcs, List.cons_append]
    simp only [parseJValue]
    rw [if_neg hq, ← List.cons_append, ← hcs, htake, hdrop, if_pos hwfn]

/-- Rendering members never shrinks below the member count: every member
contributes at least its colon. -/
theorem length_renderMembers (ms : List (String × JVal)) :
    ms.length ≤ (renderMembers ms).length := by
  induction ms with
  | nil => simp [renderMembers]
  | cons m ms ih =>
    rcases ms with _ | ⟨m2, ms2⟩
    · simp only [renderMembers, renderMember, List.length_cons, List.length_nil,
        List.length_append]
      omega
    · simp only [renderMembers, List.length_cons, List.length_append] at ih ⊢
      omega

/-- With enough fuel, parsing the rendered members followed by the closing
brace recovers the member list exactly. -/
theorem parseMembersAux_render (ms : List (String × JVal)) :
    ∀ fuel, ms ≠ [] → (∀ m ∈ ms, JValWF m.2) → ms.length < fuel →
    parseMembersAux fuel (renderMembers ms ++ ['}']) = some (ms, []) := by
  induction ms with
  | nil => intro fuel h; exact absurd rfl h
  | cons m ms ih =>
    intro fuel _ hwf hlen
    obtain ⟨k, v⟩ := m
    have hv : JValWF v := hwf (k, v) (by simp)
    obtain ⟨f, rfl⟩ : ∃ f, fuel = f + 1 := ⟨fuel - 1, by omega⟩
    rcases ms with _ | ⟨m2, ms2⟩
    · have hshape : renderMembers [(k, v)] ++ ['}'] =
          '"' :: (k.data.flatMap escapeChar ++
            '"' :: ':' :: (renderJVal v ++ '}' :: [])) := by
        simp [renderMembers, renderMember, renderString]
      rw [hshape]
      simp only [parseMembersAux]
      rw [if_pos trivial]
      rw [parseStringAux_render k.data []
        ((k.data.flatMap escapeChar ++
          '"' :: ':' :: (renderJVal v ++ '}' :: [])).length + 1)
        (':' :: (renderJVal v ++ '}' :: []))
        (by simp [List.length_append])]
      show (if ':' = ':' then _ else none) = _
      rw [if_pos rfl]
      rw [parseJValue_render v hv '}' [] (by decide)]
      show (if '}' = ',' then _ else if '}' = '}' then _ else none) = _
      rw [if_neg (by decide), if_pos rfl]
      rfl
    · have hshape : renderMembers ((k, v) :: m2 :: ms2) ++ ['}'] =
          '"' :: (k.data.flatMap escapeChar ++
            '"' :: ':' :: (renderJVal v ++
              ',' :: (renderMembers (m2 :: ms2) ++ ['}']))) := by
        simp [renderMembers, renderMember, renderString]
      rw [hshape]
      simp only [parseMembersAux]
      rw [if_pos trivial]
      rw [parseStringAux_render k.data []
        ((k.data.flatMap escapeChar ++
          '"' :: ':' :: (renderJVal v ++
            ',' :: (renderMembers (m2 :: ms2) ++ ['}']))).length + 1)
        (':' :: (renderJVal v ++ ',' :: (renderMembers (m2 :: ms2) ++ ['}'])))
        (by simp [List.length_append])]
      show (if ':' = ':' then _ else none) = _
      rw [if_pos rfl]
      rw [parseJValue_render v hv ',' (renderMembers (m2 :: ms2) ++ ['}'])
        (by decide)]
      show (if ',' = ',' then _ else if ',' = '}' then _ else none) = _
      rw [if_pos rfl]
      rw [ih f (by simp) (fun x hx => hwf x (by simp [hx]))
        (by simp at hlen ⊢; omega)]
      rfl

/-- Parsing the stringified flat object recovers the members. -/
theorem parseJsonObject_stringify (ms : List (String × JVal))
    (hwf : ∀ m ∈ ms, JValWF m.2) :
    parseJsonObject (stringifyJson ms) = some ms := by
  rcases ms with _ | ⟨m, ms2⟩
  · rfl
  · have hne : ¬(renderMembers (m :: ms2) ++ ['}'] = ['}']) := by
      intro he
      have hl := congrArg List.length he
      simp only [List.length_append, List.length_cons, List.length_nil] at hl
      have := length_renderMembers (m :: ms2)
      simp only [List.length_cons] at this
      omega
    show parseJsonObject
        (String.mk ('{' :: (renderMembers (m :: ms2) ++ ['}']))) = _
    simp only [parseJsonObject]
    rw [if_pos trivial, if_neg hne]
    rw [parseMembersAux_render (m :: ms2)
      ((renderMembers (m :: ms2) ++ ['}']).length + 1) (by simp) hwf
      (by
        have := length_renderMembers (m :: ms2)
        simp only [List.length_append, List.length_cons, List.length_nil] at this ⊢
        omega)]
    rfl

/-- Schema-parsing the members a schema-valid challenge serializes to yields
the challenge back. -/
theorem challengeOfMembers_challengeMembers (c : PaymentChallenge)
    (hsc : schemaCheckChallenge c = true) :
    challengeOfMembers (challengeMembers c) = some c := by
  obtain ⟨pr, am, cu, ne, ad, no, fu, ts, ex⟩ := c
  rcases fu with _ | u
  · simp [challengeMembers, challengeOfMembers, jsonLookup, hsc]
  · simp [challengeMembers, challengeOfMembers, jsonLookup, hsc]

/-- C8: for every challenge the payment-challenge schema accepts, encoding
yields a token; decoding that token (base64, UTF-8, JSON.parse, schema parse)
returns a challenge structurally equal to the original; and re-encoding any
challenge the decoder returns reproduces the very same token — the round-trip
identity. -/
theorem encodePaymentChallenge_roundtrip (c : PaymentChallenge)
    (h : schemaCheckChallenge c = true) :
    ∃ tok, encodePaymentChallenge c = some tok ∧
      decodePaymentChallengeToken tok = some c ∧
      ∀ c2, decodePaymentChallengeToken tok = some c2 →
        encodePaymentChallenge c2 = some tok := by
  have henc : encodePaymentChallenge c =
      some (String.mk (b64encode
        (utf8Encode (stringifyJson (challengeMembers c)).data))) := by
    simp only [encodePaymentChallenge]
    rw [if_pos h]
  have hwfm : ∀ m ∈ challengeMembers c, JValWF m.2 := by
    intro m hm
    simp only [challengeMembers, List.mem_append, List.mem_cons,
      List.mem_singleton, List.not_mem_nil, or_false] at hm
    have ham : JValWF (JVal.num c.amount) := by
      show wellFormedNumber c.amount.data = true
      simp only [schemaCheckChallenge, Bool.and_eq_true] at h
      exact h.1.1.1.1.1.1.1.1.1.2
    rcases hm with ((rfl | rfl | rfl | rfl | rfl | rfl) | hfac) | (rfl | rfl)
    · trivial
    · exact ham
    · trivial
    · trivial
    · trivial
    · trivial
    · rcases hfu : c.facilitatorUrl with _ | u <;> rw [hfu] at hfac
      · simp at hfac
      · simp only [List.mem_singleton] at hfac
        subst hfac
        trivial
    · trivial
    · trivial
  have hb64 : b64decode (String.mk (b64encode
      (utf8Encode (stringifyJson (challengeMembers c)).data))).data =
      some (utf8Encode (stringifyJson (challengeMembers c)).data) := by
    show b64decode (b64encode
      (utf8Encode (stringifyJson (challengeMembers c)).data)) = _
    exact b64decode_b64encode _ (utf8Encode_lt _)
  have hjson : parseJsonObject (String.mk
      (stringifyJson (challengeMembers c)).data) = some (challengeMembers c) := by
    show parseJsonObject (stringifyJson (challengeMembers c)) = _
    exact parseJsonObject_stringify (challengeMembers c) hwfm
  have hdec : decodePaymentChallengeToken (String.mk (b64encode
      (utf8Encode (stringifyJson (challengeMembers c)).data))) = some c := by
    simp only [decodePaymentChallengeToken]
    rw [hb64]
    simp only [Option.bind_eq_bind, Option.some_bind]
    rw [utf8Decode_utf8Encode]
    simp only [Option.some_bind]
    rw [hjson]
    simp only [Option.some_bind]
    exact challengeOfMembers_challengeMembers c h
  refine ⟨_, henc, hdec, ?_⟩
  intro c2 hc2
  rw [hdec] at hc2
  injection hc2 with he
  rw [← he]
  exact henc

/-- Witness for C8: the concrete sample challenge passes the schema, and the
round trip holds for it. -/
theorem encodePaymentChallenge_roundtrip_witness :
    schemaCheckChallenge sampleChallenge = true ∧
    ∃ tok, encodePaymentChallenge sampleChallenge = some tok ∧
      decodePaymentChallengeToken tok = some sampleChallenge ∧
      ∀ c2, decodePaymentChallengeToken tok = some c2 →
        encodePaymentChallenge c2 = some tok :=
  ⟨by decide, encodePaymentChallenge_roundtrip sampleChallenge (by decide)⟩

end X402
